import Mathlib

/-!
Shallow embedding of the torchtnt `evaluate` entry point
(src/torchtnt/runner/evaluate.py) and the runtime pieces it uses.

The loop driver (`evaluate`, `_evaluate_impl`, the step loop) is translated
directly from src/torchtnt/runner/evaluate.py.  The auxiliary runtime pieces
that the repository snapshot does not ship under src/ (the Progress counters,
State/PhaseState, `_is_epoch_done`, `_run_callback_fn`, the module
training-mode helpers and `_step_requires_iterator`) are modelled from the
spec, as marked on each definition.

Modelling conventions:
* batches and step outputs are opaque values, represented by `Nat`;
* a Python exception is a `PyErr` (StopIteration is distinguished because the
  step loop catches it); a user hook either returns normally — reporting
  whether it called `state.stop()` — or raises, i.e. has type
  `State → Except PyErr Bool`;
* every hook/step invocation and the empty-dataloader warning are recorded in
  an event trace, so hook-ordering properties are statements about traces;
* the tracked modules of the unit are represented by the list of their
  `training` flags, threaded through `State.module_modes` (world state);
* the step loop takes a fuel parameter (the Python loop can diverge when the
  step function consumes the raw iterator and never raises); `none` as a run
  result means the fuel ran out.
-/

namespace TNT

/-- A Python exception value.  `StopIteration` is singled out because the
evaluate step loop catches it; every other exception is `other` with an
identity tag, so that re-raising "the same exception object" is expressible. -/
inductive PyErr where
  | stopIteration : PyErr
  | other : Nat → PyErr
deriving DecidableEq, Repr

/-- The hook names dispatched by the evaluate driver. -/
inductive HookName where
  | on_eval_start : HookName
  | on_eval_epoch_start : HookName
  | on_eval_step_start : HookName
  | on_eval_step_end : HookName
  | on_eval_epoch_end : HookName
  | on_eval_end : HookName
  | on_exception : HookName
deriving DecidableEq, Repr

/-- Observable events of a run: unit hook invocations, callback hook
invocations (`cbHook i h` = hook `h` on the callback at registration index
`i`), a batch pulled from the data iterator, an invocation of the unit's
`eval_step`, and the empty-dataloader warning. -/
inductive Event where
  | unitHook : HookName → Event
  | cbHook : Nat → HookName → Event
  | dataNext : Nat → Event
  | evalStep : Event
  | warnEmpty : Event
deriving DecidableEq, Repr

/-- The hook name an event refers to, if any. -/
def hookOf : Event → Option HookName
  | .unitHook h => some h
  | .cbHook _ h => some h
  | _ => none

/-- Modelled from the spec: Progress counters (spec 3 and 4.1); the class
itself is not under src/. -/
structure Progress where
  num_steps_completed : Nat := 0
  num_steps_completed_in_epoch : Nat := 0
  num_epochs_completed : Nat := 0
deriving DecidableEq, Repr

/-- Modelled from the spec (4.1): `increment_step` bumps both step counters. -/
def Progress.increment_step (p : Progress) : Progress :=
  { p with
    num_steps_completed := p.num_steps_completed + 1
    num_steps_completed_in_epoch := p.num_steps_completed_in_epoch + 1 }

/-- Modelled from the spec (4.1): `increment_epoch` bumps the epoch counter
and resets the in-epoch step counter. -/
def Progress.increment_epoch (p : Progress) : Progress :=
  { p with
    num_epochs_completed := p.num_epochs_completed + 1
    num_steps_completed_in_epoch := 0 }

/-- Modelled from the spec (3): the eval `PhaseState`.  The dataloader is a
finite list of opaque batches; `_step_output` is the transient
last-step-output slot. -/
structure PhaseState where
  dataloader : List Nat
  max_steps_per_epoch : Option Nat := none
  max_steps : Option Nat := none
  progress : Progress := {}
  _step_output : Option Nat := none
deriving DecidableEq, Repr

/-- Modelled from the spec (3): the run's entry point kind. -/
inductive EntryPoint where
  | TRAIN : EntryPoint
  | EVALUATE : EntryPoint
  | FIT : EntryPoint
deriving DecidableEq, Repr

/-- Modelled from the spec (3): the top-level `State` for an evaluate run.
`module_modes` is world state: the current `training` flags of the unit's
tracked modules (mutated by `_set_module_training_mode` and restored at the
end of `_evaluate_impl`). -/
structure State where
  entry_point : EntryPoint
  eval_state : PhaseState
  should_stop : Bool := false
  module_modes : List Bool := []
deriving DecidableEq, Repr

/-- The effect of `state.stop()` as observed by the runtime: a hook reports whether it
requested a stop, and the flag is or-ed in (it is never cleared). -/
def applyStop (s : State) (b : Bool) : State :=
  if b then { s with should_stop := true } else s

/-- Modelled from the spec (4.2 step 5): `_is_epoch_done` — the epoch is done
once the per-epoch step cap or the cumulative step cap is reached (data
exhaustion is signalled separately via StopIteration). -/
def _is_epoch_done (p : Progress) (max_steps_per_epoch max_steps : Option Nat) : Bool :=
  (match max_steps_per_epoch with
   | some m => decide (m ≤ p.num_steps_completed_in_epoch)
   | none => false)
  || (match max_steps with
      | some m => decide (m ≤ p.num_steps_completed)
      | none => false)

/-- The evaluation unit, from the caller.  Each lifecycle hook takes the
current `State` and either raises or returns whether it called
`state.stop()`.  `eval_step` returns its output as well; in iterator mode
(`step_requires_iterator = true`, modelled from the spec's wants-iterator
capability, design note 9) `eval_step_iter` consumes the remaining batches
and returns what is left of them. -/
structure EvalUnit where
  step_requires_iterator : Bool := false
  on_eval_start : State → Except PyErr Bool := fun _ => .ok false
  on_eval_epoch_start : State → Except PyErr Bool := fun _ => .ok false
  eval_step : State → Nat → Except PyErr (Nat × Bool) := fun _ _ => .ok (0, false)
  eval_step_iter : State → List Nat → Except PyErr ((Nat × Bool) × List Nat) :=
    fun _ rem => .ok ((0, false), rem)
  on_eval_epoch_end : State → Except PyErr Bool := fun _ => .ok false
  on_eval_end : State → Except PyErr Bool := fun _ => .ok false
  on_exception : State → PyErr → Except PyErr Bool := fun _ _ => .ok false

/-- A callback: one behaviour per hook name (a missing hook is a no-op,
spec 4.4). -/
structure Callback where
  hook : HookName → State → Except PyErr Bool := fun _ _ => .ok false

/-- The effect of a code region: the events it emitted, the state it left
behind, and the exception escaping it, if any. -/
structure Eff where
  trace : List Event
  state : State
  exc : Option PyErr
deriving DecidableEq, Repr

/-- Effect with no events and no exception. -/
def Eff.pure (s : State) : Eff := { trace := [], state := s, exc := none }

/-- Sequencing of effects: the continuation runs only when no exception is
pending (Python control flow). -/
def Eff.then (r : Eff) (f : State → Eff) : Eff :=
  match r.exc with
  | some _ => r
  | none =>
    let r2 := f r.state
    { trace := r.trace ++ r2.trace, state := r2.state, exc := r2.exc }

/-- Invoke a unit hook, recording the event; state changes through
`state.stop()` only. -/
def runUnitHook (h : HookName) (f : State → Except PyErr Bool) (s : State) : Eff :=
  match f s with
  | .error e => { trace := [Event.unitHook h], state := s, exc := some e }
  | .ok b => { trace := [Event.unitHook h], state := applyStop s b, exc := none }

/-- Modelled from the spec (4.4): `_run_callback_fn` — invoke the named hook
on each callback in registration order (`i` is the index of the first
callback in `cbs`); an exception from one callback skips the rest and
propagates. -/
def _run_callback_fn (cbs : List Callback) (i : Nat) (h : HookName) (s : State) : Eff :=
  match cbs with
  | [] => Eff.pure s
  | c :: rest =>
    match c.hook h s with
    | .error e => { trace := [Event.cbHook i h], state := s, exc := some e }
    | .ok b =>
      let r := _run_callback_fn rest (i + 1) h (applyStop s b)
      { trace := Event.cbHook i h :: r.trace, state := r.state, exc := r.exc }

/-- How one iteration of the step loop ends: complete a step and continue
with the remaining batches, break out (a caught StopIteration), or propagate
an exception out of the loop. -/
inductive BodyOut where
  | next : List Nat → BodyOut
  | brk : BodyOut
  | raised : PyErr → BodyOut
deriving DecidableEq, Repr

/-- An exception inside the try-block of the step loop: StopIteration breaks,
anything else propagates (evaluate.py lines 113-126). -/
def classifyExc : PyErr → BodyOut
  | .stopIteration => .brk
  | e => .raised e

/-- Line 120 of evaluate.py: store the step function's result in the phase
state's `_step_output` slot. -/
def _assign_step_output (s : State) (out : Nat) : State :=
  { s with eval_state := { s.eval_state with _step_output := some out } }

/-- Line 123-124 of evaluate.py: clear `_step_output` and count the step. -/
def _finish_step (s : State) : State :=
  { s with
    eval_state :=
      { s.eval_state with
        _step_output := none
        progress := s.eval_state.progress.increment_step } }

/-- The part of the loop body after the step input is determined:
`on_eval_step_start` callbacks, the unit's `eval_step` (whose result is
stored in `_step_output`), `on_eval_step_end` callbacks, then the output is
cleared and the step counted (evaluate.py lines 118-124).  `doStep` performs
the actual `eval_step` call and yields the remaining batches. -/
def _eval_step_core (cbs : List Callback) (s : State)
    (doStep : State → Except PyErr ((Nat × Bool) × List Nat)) :
    List Event × State × BodyOut :=
  let rA := _run_callback_fn cbs 0 .on_eval_step_start s
  match rA.exc with
  | some e => (rA.trace, rA.state, classifyExc e)
  | none =>
    match doStep rA.state with
    | .error e => (rA.trace ++ [Event.evalStep], rA.state, classifyExc e)
    | .ok ((out, stopB), rem') =>
      let sB := applyStop (_assign_step_output rA.state out) stopB
      let rC := _run_callback_fn cbs 0 .on_eval_step_end sB
      match rC.exc with
      | some e => (rA.trace ++ Event.evalStep :: rC.trace, rC.state, classifyExc e)
      | none =>
        (rA.trace ++ Event.evalStep :: rC.trace, _finish_step rC.state, .next rem')

/-- One full iteration of the step loop's try-block, including the batch
pull via `next()` when the step function takes batches rather than the
iterator (evaluate.py lines 113-126). -/
def _eval_step_body (u : EvalUnit) (cbs : List Callback) (s : State) (rem : List Nat) :
    List Event × State × BodyOut :=
  if u.step_requires_iterator then
    _eval_step_core cbs s (fun st => u.eval_step_iter st rem)
  else
    match rem with
    | [] => ([], s, .brk)
    | b :: rest =>
      let r := _eval_step_core cbs s
        (fun st => (u.eval_step st b).map (fun ob => (ob, rest)))
      (Event.dataNext b :: r.1, r.2)

/-- The while-loop of `_evaluate_impl` (evaluate.py lines 107-126): loop
while neither a stop was requested nor the epoch is done; each iteration
runs the step body on the remaining batches.  `fuel` bounds the number of
iterations; `none` means it was exhausted. -/
def _eval_loop (u : EvalUnit) (cbs : List Callback) :
    Nat → State → List Nat → Option Eff
  | 0, _, _ => none
  | fuel + 1, s, rem =>
    if s.should_stop
        || _is_epoch_done s.eval_state.progress s.eval_state.max_steps_per_epoch
            s.eval_state.max_steps then
      some (Eff.pure s)
    else
      match _eval_step_body u cbs s rem with
      | (tr, s', .brk) => some { trace := tr, state := s', exc := none }
      | (tr, s', .raised e) => some { trace := tr, state := s', exc := some e }
      | (tr, s', .next rem') =>
        match _eval_loop u cbs fuel s' rem' with
        | none => none
        | some r => some { trace := tr ++ r.trace, state := r.state, exc := r.exc }

/-- Modelled from the spec (4.2 step 1): `_set_module_training_mode` — set
every tracked module's training flag to `mode`, yielding the new flags.  The
prior flags (the returned dictionary in the source) are simply the old list. -/
def _set_module_training_mode (modes : List Bool) (mode : Bool) : List Bool :=
  modes.map (fun _ => mode)

/-- The part of `_evaluate_impl` before the step loop (evaluate.py lines
83-90): put the tracked modules in eval mode, then the `on_eval_start` hooks
(unit, then callbacks). -/
def _eval_pre_start (u : EvalUnit) (cbs : List Callback) (s0 : State) : Eff :=
  let s1 : State := { s0 with module_modes := _set_module_training_mode s0.module_modes false }
  (runUnitHook .on_eval_start u.on_eval_start s1).then
    (_run_callback_fn cbs 0 .on_eval_start)

/-- The pre-loop phase including the guarded epoch-start hooks (evaluate.py
lines 83-99): the `on_eval_epoch_start` hooks run only when no step of the
epoch has completed yet (mid-epoch resume guard). -/
def _eval_pre (u : EvalUnit) (cbs : List Callback) (s0 : State) : Eff :=
  (_eval_pre_start u cbs s0).then fun s =>
    if s.eval_state.progress.num_steps_completed_in_epoch == 0 then
      (runUnitHook .on_eval_epoch_start u.on_eval_epoch_start s).then
        (_run_callback_fn cbs 0 .on_eval_epoch_start)
    else Eff.pure s

/-- The part of `_evaluate_impl` after the step loop (evaluate.py lines
128-149): warn when no step completed, `on_eval_epoch_end` hooks,
`increment_epoch`, `on_eval_end` hooks, and finally restore the tracked
modules' prior training modes.  As in the source, this runs only when the
loop exited without an exception, and the mode restoration is skipped the
moment any of these hooks raises. -/
def _eval_post (u : EvalUnit) (cbs : List Callback) (prior : List Bool) (prev : Nat)
    (s : State) : Eff :=
  let any_steps : Bool :=
    decide (0 < ((s.eval_state.progress.num_steps_completed_in_epoch : Int) - (prev : Int)).natAbs)
  let warn : Eff :=
    { trace := if any_steps then [] else [Event.warnEmpty], state := s, exc := none }
  (((((warn.then
      (runUnitHook .on_eval_epoch_end u.on_eval_epoch_end)).then
      (_run_callback_fn cbs 0 .on_eval_epoch_end)).then fun s2 =>
        Eff.pure
          { s2 with
            eval_state :=
              { s2.eval_state with progress := s2.eval_state.progress.increment_epoch } }).then
      (runUnitHook .on_eval_end u.on_eval_end)).then
      (_run_callback_fn cbs 0 .on_eval_end)).then fun s3 =>
        Eff.pure { s3 with module_modes := prior }

/-- The body of `_evaluate_impl` (evaluate.py lines 69-149). -/
def _evaluate_impl (u : EvalUnit) (cbs : List Callback) (fuel : Nat) (s0 : State) :
    Option Eff :=
  let prior := s0.module_modes
  let rPre := _eval_pre u cbs s0
  match rPre.exc with
  | some _ => some rPre
  | none =>
    let prev := rPre.state.eval_state.progress.num_steps_completed_in_epoch
    match _eval_loop u cbs fuel rPre.state rPre.state.eval_state.dataloader with
    | none => none
    | some rL =>
      match rL.exc with
      | some e => some { trace := rPre.trace ++ rL.trace, state := rL.state, exc := some e }
      | none =>
        let rPost := _eval_post u cbs prior prev rL.state
        some { trace := rPre.trace ++ rL.trace ++ rPost.trace, state := rPost.state,
               exc := rPost.exc }

/-- The fresh `State` that `evaluate` constructs (evaluate.py lines 49-55). -/
def initState (dl : List Nat) (mspe : Option Nat) (modes : List Bool) : State :=
  { entry_point := .EVALUATE
    eval_state := { dataloader := dl, max_steps_per_epoch := mspe }
    should_stop := false
    module_modes := modes }

/-- The `evaluate` entry point (evaluate.py lines 28-66): build a fresh
state, run `_evaluate_impl`; on an exception, invoke `on_exception` on the
unit and then on each callback, and re-raise — the original exception unless
an exception hook itself raised. -/
def evaluate (u : EvalUnit) (dl : List Nat) (cbs : List Callback) (mspe : Option Nat)
    (modes : List Bool) (fuel : Nat) : Option Eff :=
  match _evaluate_impl u cbs fuel (initState dl mspe modes) with
  | none => none
  | some r =>
    match r.exc with
    | none => some r
    | some e =>
      let rX := (runUnitHook .on_exception (fun s => u.on_exception s e) r.state).then
        (_run_callback_fn cbs 0 .on_exception)
      some { trace := r.trace ++ rX.trace, state := rX.state,
             exc := some (match rX.exc with | some e2 => e2 | none => e) }

/-- The expected trace of a fully successful callback dispatch: one event per
callback, in registration order starting at index `i`. -/
def cbTrace : Nat → Nat → HookName → List Event
  | _, 0, _ => []
  | i, n + 1, h => Event.cbHook i h :: cbTrace (i + 1) n h

/-! ### Basic lemmas about the building blocks -/

theorem cbTrace_zero (i : Nat) (h : HookName) : cbTrace i 0 h = [] := rfl

theorem cbTrace_succ (i n : Nat) (h : HookName) :
    cbTrace i (n + 1) h = Event.cbHook i h :: cbTrace (i + 1) n h := rfl

theorem cbTrace_mem {i n : Nat} {h : HookName} {e : Event}
    (he : e ∈ cbTrace i n h) : ∃ j, e = Event.cbHook j h := by
  induction n generalizing i with
  | zero => simp [cbTrace] at he
  | succ n ih =>
    rw [cbTrace_succ, List.mem_cons] at he
    rcases he with rfl | he
    · exact ⟨i, rfl⟩
    · exact ih he

theorem applyStop_eval_state (s : State) (b : Bool) :
    (applyStop s b).eval_state = s.eval_state := by
  unfold applyStop; split <;> rfl

theorem applyStop_entry (s : State) (b : Bool) :
    (applyStop s b).entry_point = s.entry_point := by
  unfold applyStop; split <;> rfl

theorem applyStop_modes (s : State) (b : Bool) :
    (applyStop s b).module_modes = s.module_modes := by
  unfold applyStop; split <;> rfl

theorem applyStop_false (s : State) : applyStop s false = s := by
  simp [applyStop]

theorem applyStop_stop_mono {s : State} {b : Bool} (hs : s.should_stop = true) :
    (applyStop s b).should_stop = true := by
  unfold applyStop; split <;> simp [hs]

theorem runUnitHook_trace (h : HookName) (f : State → Except PyErr Bool) (s : State) :
    (runUnitHook h f s).trace = [Event.unitHook h] := by
  unfold runUnitHook; cases f s <;> rfl

theorem runUnitHook_eval_state (h : HookName) (f : State → Except PyErr Bool) (s : State) :
    (runUnitHook h f s).state.eval_state = s.eval_state := by
  unfold runUnitHook; cases f s <;> simp [applyStop_eval_state]

theorem runUnitHook_entry (h : HookName) (f : State → Except PyErr Bool) (s : State) :
    (runUnitHook h f s).state.entry_point = s.entry_point := by
  unfold runUnitHook; cases f s <;> simp [applyStop_entry]

theorem runUnitHook_modes (h : HookName) (f : State → Except PyErr Bool) (s : State) :
    (runUnitHook h f s).state.module_modes = s.module_modes := by
  unfold runUnitHook; cases f s <;> simp [applyStop_modes]

theorem runUnitHook_stop_mono {h : HookName} {f : State → Except PyErr Bool} {s : State}
    (hs : s.should_stop = true) : (runUnitHook h f s).state.should_stop = true := by
  unfold runUnitHook; cases f s <;> simp [hs, applyStop_stop_mono]

theorem runUnitHook_ok {h : HookName} {f : State → Except PyErr Bool} {s : State} {b : Bool}
    (hf : f s = .ok b) :
    runUnitHook h f s = { trace := [Event.unitHook h], state := applyStop s b, exc := none } := by
  unfold runUnitHook; rw [hf]

theorem run_callback_fn_eval_state (cbs : List Callback) (i : Nat) (h : HookName) (s : State) :
    (_run_callback_fn cbs i h s).state.eval_state = s.eval_state := by
  induction cbs generalizing i s with
  | nil => rfl
  | cons c rest ih =>
    unfold _run_callback_fn
    cases c.hook h s with
    | error e => rfl
    | ok b => simpa [applyStop_eval_state] using ih (i + 1) (applyStop s b)

theorem run_callback_fn_entry (cbs : List Callback) (i : Nat) (h : HookName) (s : State) :
    (_run_callback_fn cbs i h s).state.entry_point = s.entry_point := by
  induction cbs generalizing i s with
  | nil => rfl
  | cons c rest ih =>
    unfold _run_callback_fn
    cases c.hook h s with
    | error e => rfl
    | ok b => simpa [applyStop_entry] using ih (i + 1) (applyStop s b)

theorem run_callback_fn_modes (cbs : List Callback) (i : Nat) (h : HookName) (s : State) :
    (_run_callback_fn cbs i h s).state.module_modes = s.module_modes := by
  induction cbs generalizing i s with
  | nil => rfl
  | cons c rest ih =>
    unfold _run_callback_fn
    cases c.hook h s with
    | error e => rfl
    | ok b => simpa [applyStop_modes] using ih (i + 1) (applyStop s b)

theorem run_callback_fn_stop_mono {cbs : List Callback} {i : Nat} {h : HookName} {s : State}
    (hs : s.should_stop = true) : (_run_callback_fn cbs i h s).state.should_stop = true := by
  induction cbs generalizing i s with
  | nil => exact hs
  | cons c rest ih =>
    unfold _run_callback_fn
    cases c.hook h s with
    | error e => exact hs
    | ok b => exact ih (applyStop_stop_mono hs)

theorem run_callback_fn_trace_mem {cbs : List Callback} {i : Nat} {h : HookName} {s : State}
    {e : Event} (he : e ∈ (_run_callback_fn cbs i h s).trace) :
    ∃ j, e = Event.cbHook j h := by
  induction cbs generalizing i s with
  | nil => simp [_run_callback_fn, Eff.pure] at he
  | cons c rest ih =>
    rcases hc : c.hook h s with e' | b
    · simp only [_run_callback_fn, hc, List.mem_singleton] at he
      exact ⟨i, he⟩
    · simp only [_run_callback_fn, hc, List.mem_cons] at he
      rcases he with rfl | he
      · exact ⟨i, rfl⟩
      · exact ih he

theorem run_callback_fn_exc_none_trace {cbs : List Callback} {i : Nat} {h : HookName} {s : State}
    (hok : (_run_callback_fn cbs i h s).exc = none) :
    (_run_callback_fn cbs i h s).trace = cbTrace i cbs.length h := by
  induction cbs generalizing i s with
  | nil => rfl
  | cons c rest ih =>
    rcases hc : c.hook h s with e' | b
    · simp only [_run_callback_fn, hc] at hok
      exact (Option.some_ne_none e' hok).elim
    · simp only [_run_callback_fn, hc] at hok ⊢
      rw [List.length_cons, cbTrace_succ, ih hok]

theorem run_callback_fn_ok {cbs : List Callback} {h : HookName}
    (hok : ∀ c ∈ cbs, ∀ s', ∃ b, c.hook h s' = .ok b) (i : Nat) (s : State) :
    (_run_callback_fn cbs i h s).exc = none := by
  induction cbs generalizing i s with
  | nil => rfl
  | cons c rest ih =>
    obtain ⟨b, hb⟩ := hok c (List.mem_cons_self c rest) s
    simp only [_run_callback_fn, hb]
    exact ih (fun c' hc' => hok c' (List.mem_cons_of_mem c hc')) (i + 1) (applyStop s b)

theorem run_callback_fn_benign {cbs : List Callback}
    (hb : ∀ c ∈ cbs, ∀ h' s', c.hook h' s' = .ok false) (i : Nat) (h : HookName) (s : State) :
    _run_callback_fn cbs i h s = { trace := cbTrace i cbs.length h, state := s, exc := none } := by
  induction cbs generalizing i s with
  | nil => rfl
  | cons c rest ih =>
    simp only [_run_callback_fn, hb c (List.mem_cons_self c rest) h s, applyStop_false,
      ih (fun c' hc' => hb c' (List.mem_cons_of_mem c hc')) (i + 1) s]
    simp [cbTrace_succ]

theorem run_callback_fn_no_stopIteration {cbs : List Callback} {h : HookName}
    (hne : ∀ c ∈ cbs, ∀ s', c.hook h s' ≠ .error .stopIteration) (i : Nat) (s : State) :
    (_run_callback_fn cbs i h s).exc ≠ some .stopIteration := by
  induction cbs generalizing i s with
  | nil => simp [_run_callback_fn, Eff.pure]
  | cons c rest ih =>
    rcases hc : c.hook h s with e | b
    · simp only [_run_callback_fn, hc]
      intro hcontra
      obtain rfl := Option.some.inj hcontra
      exact hne c (List.mem_cons_self c rest) s hc
    · simp only [_run_callback_fn, hc]
      exact ih (fun c' hc' => hne c' (List.mem_cons_of_mem c hc')) (i + 1) (applyStop s b)

theorem Eff.mem_then_left {r : Eff} {f : State → Eff} {e : Event}
    (he : e ∈ r.trace) : e ∈ (r.then f).trace := by
  cases hr : r.exc <;> simp [Eff.then, hr, he]

theorem Eff.mem_then_right {r : Eff} {f : State → Eff} {e : Event}
    (hr : r.exc = none) (he : e ∈ (f r.state).trace) : e ∈ (r.then f).trace := by
  simp [Eff.then, hr, he]

theorem Eff.then_trace_mem {r : Eff} {f : State → Eff} {e : Event}
    (he : e ∈ (r.then f).trace) : e ∈ r.trace ∨ e ∈ (f r.state).trace := by
  cases hr : r.exc
  · simp only [Eff.then, hr, List.mem_append] at he
    exact he
  · simp only [Eff.then, hr] at he
    exact Or.inl he

theorem Eff.then_exc_none {r : Eff} {f : State → Eff} (h : (r.then f).exc = none) :
    r.exc = none ∧ (r.then f).state = (f r.state).state ∧ (f r.state).exc = none ∧
      (r.then f).trace = r.trace ++ (f r.state).trace := by
  cases hr : r.exc
  · have hexc : (f r.state).exc = none := by
      have h2 := h
      simp only [Eff.then, hr] at h2
      exact h2
    exact ⟨rfl, by simp [Eff.then, hr], hexc, by simp [Eff.then, hr]⟩
  · simp only [Eff.then, hr] at h
    exact absurd h (by simp)

theorem Eff.then_state_cases (r : Eff) (f : State → Eff) :
    (r.then f).state = r.state ∨ (r.then f).state = (f r.state).state := by
  cases hr : r.exc <;> simp [Eff.then, hr]

/-! ### Lemmas about one iteration of the step loop -/

theorem assign_entry (s : State) (out : Nat) :
    (_assign_step_output s out).entry_point = s.entry_point := rfl

theorem assign_modes (s : State) (out : Nat) :
    (_assign_step_output s out).module_modes = s.module_modes := rfl

theorem assign_stop (s : State) (out : Nat) :
    (_assign_step_output s out).should_stop = s.should_stop := rfl

theorem assign_dataloader (s : State) (out : Nat) :
    (_assign_step_output s out).eval_state.dataloader = s.eval_state.dataloader := rfl

theorem assign_mspe (s : State) (out : Nat) :
    (_assign_step_output s out).eval_state.max_steps_per_epoch =
      s.eval_state.max_steps_per_epoch := rfl

theorem assign_ms (s : State) (out : Nat) :
    (_assign_step_output s out).eval_state.max_steps = s.eval_state.max_steps := rfl

theorem assign_progress (s : State) (out : Nat) :
    (_assign_step_output s out).eval_state.progress = s.eval_state.progress := rfl

theorem assign_output (s : State) (out : Nat) :
    (_assign_step_output s out).eval_state._step_output = some out := rfl

theorem finish_entry (s : State) : (_finish_step s).entry_point = s.entry_point := rfl

theorem finish_modes (s : State) : (_finish_step s).module_modes = s.module_modes := rfl

theorem finish_stop (s : State) : (_finish_step s).should_stop = s.should_stop := rfl

theorem finish_dataloader (s : State) :
    (_finish_step s).eval_state.dataloader = s.eval_state.dataloader := rfl

theorem finish_mspe (s : State) :
    (_finish_step s).eval_state.max_steps_per_epoch = s.eval_state.max_steps_per_epoch := rfl

theorem finish_ms (s : State) :
    (_finish_step s).eval_state.max_steps = s.eval_state.max_steps := rfl

theorem finish_progress (s : State) :
    (_finish_step s).eval_state.progress = s.eval_state.progress.increment_step := rfl

theorem finish_output (s : State) : (_finish_step s).eval_state._step_output = none := rfl

theorem classifyExc_ne_next (e : PyErr) (rem' : List Nat) :
    classifyExc e ≠ .next rem' := by
  cases e <;> simp [classifyExc]

theorem classifyExc_brk {e : PyErr} (h : classifyExc e = .brk) : e = .stopIteration := by
  cases e with
  | stopIteration => rfl
  | other n => simp [classifyExc] at h

theorem classifyExc_raised {e e' : PyErr} (h : classifyExc e = .raised e') : e = e' := by
  cases e with
  | stopIteration => simp [classifyExc] at h
  | other n => simpa [classifyExc] using h

/-- The state left by one loop-body iteration: bookkeeping fields are
untouched, the epoch counter never moves inside the loop body. -/
theorem eval_step_core_pres {cbs : List Callback} {s : State}
    {doStep : State → Except PyErr ((Nat × Bool) × List Nat)}
    {tr : List Event} {s' : State} {o : BodyOut}
    (heq : _eval_step_core cbs s doStep = (tr, s', o)) :
    s'.entry_point = s.entry_point ∧ s'.module_modes = s.module_modes ∧
    s'.eval_state.dataloader = s.eval_state.dataloader ∧
    s'.eval_state.max_steps_per_epoch = s.eval_state.max_steps_per_epoch ∧
    s'.eval_state.max_steps = s.eval_state.max_steps ∧
    s'.eval_state.progress.num_epochs_completed =
      s.eval_state.progress.num_epochs_completed := by
  simp only [_eval_step_core] at heq
  split at heq
  · cases heq
    simp [run_callback_fn_entry, run_callback_fn_modes, run_callback_fn_eval_state]
  · split at heq
    · cases heq
      simp [run_callback_fn_entry, run_callback_fn_modes, run_callback_fn_eval_state]
    · split at heq
      · cases heq
        simp [run_callback_fn_entry, run_callback_fn_modes, run_callback_fn_eval_state,
          applyStop_entry, applyStop_modes, applyStop_eval_state,
          assign_entry, assign_modes, assign_dataloader, assign_mspe, assign_ms,
          assign_progress]
      · cases heq
        simp [run_callback_fn_entry, run_callback_fn_modes, run_callback_fn_eval_state,
          applyStop_entry, applyStop_modes, applyStop_eval_state, Progress.increment_step,
          assign_entry, assign_modes, assign_dataloader, assign_mspe, assign_ms,
          assign_progress, finish_entry, finish_modes, finish_dataloader, finish_mspe,
          finish_ms, finish_progress]

/-- How the loop body moves progress: a completed step increments the step
counters and clears the step output; a caught StopIteration or a propagating
exception leaves the progress exactly as it was (the interrupted step is not
counted). -/
theorem eval_step_core_progress {cbs : List Callback} {s : State}
    {doStep : State → Except PyErr ((Nat × Bool) × List Nat)}
    {tr : List Event} {s' : State} {o : BodyOut}
    (heq : _eval_step_core cbs s doStep = (tr, s', o)) :
    (∀ rem', o = .next rem' →
      s'.eval_state.progress = s.eval_state.progress.increment_step ∧
      s'.eval_state._step_output = none) ∧
    (o ≠ (BodyOut.next []) → o = o) ∧
    (o = .brk ∨ (∃ e, o = .raised e) →
      s'.eval_state.progress = s.eval_state.progress) := by
  simp only [_eval_step_core] at heq
  split at heq
  · cases heq
    refine ⟨fun rem' hn => absurd hn (classifyExc_ne_next _ _), fun _ => rfl, fun _ => ?_⟩
    simp [run_callback_fn_eval_state]
  · split at heq
    · cases heq
      refine ⟨fun rem' hn => absurd hn (classifyExc_ne_next _ _), fun _ => rfl, fun _ => ?_⟩
      simp [run_callback_fn_eval_state]
    · split at heq
      · cases heq
        refine ⟨fun rem' hn => absurd hn (classifyExc_ne_next _ _), fun _ => rfl, fun _ => ?_⟩
        simp [run_callback_fn_eval_state, applyStop_eval_state, assign_progress]
      · cases heq
        refine ⟨fun rem' hn => ?_, fun _ => rfl, fun hc => ?_⟩
        · simp [run_callback_fn_eval_state, applyStop_eval_state, assign_progress,
            finish_progress, finish_output]
        · rcases hc with hc | ⟨e, hc⟩ <;> exact absurd hc (by simp)

/-- If no `on_eval_step_end` callback raises StopIteration, a caught
StopIteration can only come from the batch pull, a step-start callback, or
the step function itself — all before the step output is assigned — so the
step-output slot is unchanged on the break path. -/
theorem eval_step_core_brk_output {cbs : List Callback} {s : State}
    {doStep : State → Except PyErr ((Nat × Bool) × List Nat)}
    {tr : List Event} {s' : State}
    (heq : _eval_step_core cbs s doStep = (tr, s', .brk))
    (hend : ∀ c ∈ cbs, ∀ s2, c.hook .on_eval_step_end s2 ≠ .error .stopIteration) :
    s'.eval_state._step_output = s.eval_state._step_output := by
  rcases hA : (_run_callback_fn cbs 0 .on_eval_step_start s).exc with _ | eA
  · rcases hD : doStep (_run_callback_fn cbs 0 .on_eval_step_start s).state with eD | p
    · simp only [_eval_step_core, hA, hD] at heq
      cases eD with
      | stopIteration =>
        simp only [classifyExc, Prod.ext_iff] at heq
        obtain ⟨-, hs, -⟩ := heq
        rw [← hs, run_callback_fn_eval_state]
      | other n => simp [classifyExc, Prod.ext_iff] at heq
    · obtain ⟨⟨out, stopB⟩, rem2⟩ := p
      rcases hC : (_run_callback_fn cbs 0 .on_eval_step_end
          (applyStop (_assign_step_output
            (_run_callback_fn cbs 0 .on_eval_step_start s).state out) stopB)).exc
        with _ | eC
      · simp [_eval_step_core, hA, hD, hC, Prod.ext_iff] at heq
      · exfalso
        obtain rfl : eC = .stopIteration := by
          simp only [_eval_step_core, hA, hD, hC, Prod.ext_iff] at heq
          obtain ⟨-, -, ho⟩ := heq
          exact classifyExc_brk ho
        exact run_callback_fn_no_stopIteration hend 0 _ hC
  · simp only [_eval_step_core, hA, Prod.ext_iff] at heq
    obtain ⟨-, hs, ho⟩ := heq
    cases eA with
    | stopIteration => rw [← hs, run_callback_fn_eval_state]
    | other n => simp [classifyExc] at ho

/-- A completed loop-body step with the unit's step function requesting a
stop leaves the stop flag set. -/
theorem eval_step_core_stop {cbs : List Callback} {s : State}
    {doStep : State → Except PyErr ((Nat × Bool) × List Nat)}
    {tr : List Event} {s' : State} {rem' : List Nat}
    (heq : _eval_step_core cbs s doStep = (tr, s', .next rem'))
    (hstop : ∀ st out stopB rem2, doStep st = .ok ((out, stopB), rem2) → stopB = true) :
    s'.should_stop = true := by
  rcases hA : (_run_callback_fn cbs 0 .on_eval_step_start s).exc with _ | eA
  · rcases hD : doStep (_run_callback_fn cbs 0 .on_eval_step_start s).state with eD | p
    · simp only [_eval_step_core, hA, hD, Prod.ext_iff] at heq
      obtain ⟨-, -, ho⟩ := heq
      exact absurd ho (classifyExc_ne_next _ _)
    · obtain ⟨⟨out, stopB⟩, rem2⟩ := p
      obtain rfl := hstop _ _ _ _ hD
      rcases hC : (_run_callback_fn cbs 0 .on_eval_step_end
          (applyStop (_assign_step_output
            (_run_callback_fn cbs 0 .on_eval_step_start s).state out) true)).exc
        with _ | eC
      · simp only [_eval_step_core, hA, hD, hC, Prod.ext_iff] at heq
        obtain ⟨-, hs, -⟩ := heq
        rw [← hs, finish_stop]
        exact run_callback_fn_stop_mono (by simp [applyStop])
      · simp only [_eval_step_core, hA, hD, hC, Prod.ext_iff] at heq
        obtain ⟨-, -, ho⟩ := heq
        exact absurd ho (classifyExc_ne_next _ _)
  · simp only [_eval_step_core, hA, Prod.ext_iff] at heq
    obtain ⟨-, -, ho⟩ := heq
    exact absurd ho (classifyExc_ne_next _ _)

/-- Every event a loop-body iteration emits is a step-start callback event, a
step-end callback event, or the step invocation itself. -/
theorem eval_step_core_trace_mem {cbs : List Callback} {s : State}
    {doStep : State → Except PyErr ((Nat × Bool) × List Nat)}
    {tr : List Event} {s' : State} {o : BodyOut}
    (heq : _eval_step_core cbs s doStep = (tr, s', o)) {e : Event} (he : e ∈ tr) :
    (∃ j, e = Event.cbHook j .on_eval_step_start) ∨
    (∃ j, e = Event.cbHook j .on_eval_step_end) ∨ e = Event.evalStep := by
  simp only [_eval_step_core] at heq
  split at heq
  · cases heq
    exact Or.inl (run_callback_fn_trace_mem he)
  · split at heq
    · cases heq
      rw [List.mem_append] at he
      rcases he with he | he
      · exact Or.inl (run_callback_fn_trace_mem he)
      · simp only [List.mem_singleton] at he
        exact Or.inr (Or.inr he)
    · split at heq <;> cases heq <;>
        · rw [List.mem_append, List.mem_cons] at he
          rcases he with he | he | he
          · exact Or.inl (run_callback_fn_trace_mem he)
          · exact Or.inr (Or.inr he)
          · exact Or.inr (Or.inl (run_callback_fn_trace_mem he))

/-- On a completed step, the body's trace is exactly: every callback's
step-start hook in registration order, then the unit's step function, then
every callback's step-end hook in registration order. -/
theorem eval_step_core_next_trace {cbs : List Callback} {s : State}
    {doStep : State → Except PyErr ((Nat × Bool) × List Nat)}
    {tr : List Event} {s' : State} {rem' : List Nat}
    (heq : _eval_step_core cbs s doStep = (tr, s', .next rem')) :
    tr = cbTrace 0 cbs.length .on_eval_step_start ++ Event.evalStep ::
      cbTrace 0 cbs.length .on_eval_step_end := by
  rcases hA : (_run_callback_fn cbs 0 .on_eval_step_start s).exc with _ | eA
  · rcases hD : doStep (_run_callback_fn cbs 0 .on_eval_step_start s).state with eD | p
    · simp only [_eval_step_core, hA, hD, Prod.ext_iff] at heq
      obtain ⟨-, -, ho⟩ := heq
      exact absurd ho (classifyExc_ne_next _ _)
    · obtain ⟨⟨out, stopB⟩, rem2⟩ := p
      rcases hC : (_run_callback_fn cbs 0 .on_eval_step_end
          (applyStop (_assign_step_output
            (_run_callback_fn cbs 0 .on_eval_step_start s).state out) stopB)).exc
        with _ | eC
      · simp only [_eval_step_core, hA, hD, hC, Prod.ext_iff] at heq
        obtain ⟨htr, -, -⟩ := heq
        rw [← htr, run_callback_fn_exc_none_trace hA, run_callback_fn_exc_none_trace hC]
      · simp only [_eval_step_core, hA, hD, hC, Prod.ext_iff] at heq
        obtain ⟨-, -, ho⟩ := heq
        exact absurd ho (classifyExc_ne_next _ _)
  · simp only [_eval_step_core, hA, Prod.ext_iff] at heq
    obtain ⟨-, -, ho⟩ := heq
    exact absurd ho (classifyExc_ne_next _ _)

/-! ### Lifting the core lemmas to the full loop body -/

theorem eval_step_body_pres {u : EvalUnit} {cbs : List Callback} {s : State} {rem : List Nat}
    {tr : List Event} {s' : State} {o : BodyOut}
    (heq : _eval_step_body u cbs s rem = (tr, s', o)) :
    s'.entry_point = s.entry_point ∧ s'.module_modes = s.module_modes ∧
    s'.eval_state.dataloader = s.eval_state.dataloader ∧
    s'.eval_state.max_steps_per_epoch = s.eval_state.max_steps_per_epoch ∧
    s'.eval_state.max_steps = s.eval_state.max_steps ∧
    s'.eval_state.progress.num_epochs_completed =
      s.eval_state.progress.num_epochs_completed := by
  unfold _eval_step_body at heq
  split at heq
  · exact eval_step_core_pres heq
  · split at heq
    · cases heq
      exact ⟨rfl, rfl, rfl, rfl, rfl, rfl⟩
    · rename_i b rest
      rcases hcore : _eval_step_core cbs s
          (fun st => (u.eval_step st b).map (fun ob => (ob, rest))) with ⟨tr2, s2, o2⟩
      rw [hcore] at heq
      simp only [Prod.mk.injEq] at heq
      obtain ⟨rfl, rfl, rfl⟩ := heq
      exact eval_step_core_pres hcore

theorem eval_step_body_progress {u : EvalUnit} {cbs : List Callback} {s : State}
    {rem : List Nat} {tr : List Event} {s' : State} {o : BodyOut}
    (heq : _eval_step_body u cbs s rem = (tr, s', o)) :
    (∀ rem', o = .next rem' →
      s'.eval_state.progress = s.eval_state.progress.increment_step ∧
      s'.eval_state._step_output = none) ∧
    (o = .brk ∨ (∃ e, o = .raised e) →
      s'.eval_state.progress = s.eval_state.progress) := by
  unfold _eval_step_body at heq
  split at heq
  · obtain ⟨h1, -, h3⟩ := eval_step_core_progress heq
    exact ⟨h1, h3⟩
  · split at heq
    · cases heq
      exact ⟨fun rem' hn => absurd hn (by simp), fun _ => rfl⟩
    · rename_i b rest
      rcases hcore : _eval_step_core cbs s
          (fun st => (u.eval_step st b).map (fun ob => (ob, rest))) with ⟨tr2, s2, o2⟩
      rw [hcore] at heq
      simp only [Prod.mk.injEq] at heq
      obtain ⟨rfl, rfl, rfl⟩ := heq
      obtain ⟨h1, -, h3⟩ := eval_step_core_progress hcore
      exact ⟨h1, h3⟩

theorem eval_step_body_trace_mem {u : EvalUnit} {cbs : List Callback} {s : State}
    {rem : List Nat} {tr : List Event} {s' : State} {o : BodyOut}
    (heq : _eval_step_body u cbs s rem = (tr, s', o)) {e : Event} (he : e ∈ tr) :
    (∃ j, e = Event.cbHook j .on_eval_step_start) ∨
    (∃ j, e = Event.cbHook j .on_eval_step_end) ∨ e = Event.evalStep ∨
    (∃ b, e = Event.dataNext b) := by
  unfold _eval_step_body at heq
  split at heq
  · rcases eval_step_core_trace_mem heq he with h | h | h
    · exact Or.inl h
    · exact Or.inr (Or.inl h)
    · exact Or.inr (Or.inr (Or.inl h))
  · split at heq
    · cases heq
      simp at he
    · rename_i b rest
      rcases hcore : _eval_step_core cbs s
          (fun st => (u.eval_step st b).map (fun ob => (ob, rest))) with ⟨tr2, s2, o2⟩
      rw [hcore] at heq
      simp only [Prod.mk.injEq] at heq
      obtain ⟨rfl, rfl, rfl⟩ := heq
      rw [List.mem_cons] at he
      rcases he with rfl | he
      · exact Or.inr (Or.inr (Or.inr ⟨_, rfl⟩))
      · rcases eval_step_core_trace_mem hcore he with h | h | h
        · exact Or.inl h
        · exact Or.inr (Or.inl h)
        · exact Or.inr (Or.inr (Or.inl h))

theorem eval_step_body_brk_output {u : EvalUnit} {cbs : List Callback} {s : State}
    {rem : List Nat} {tr : List Event} {s' : State}
    (heq : _eval_step_body u cbs s rem = (tr, s', .brk))
    (hend : ∀ c ∈ cbs, ∀ s2, c.hook .on_eval_step_end s2 ≠ .error .stopIteration) :
    s'.eval_state._step_output = s.eval_state._step_output := by
  unfold _eval_step_body at heq
  split at heq
  · exact eval_step_core_brk_output heq hend
  · split at heq
    · cases heq
      rfl
    · rename_i b rest
      rcases hcore : _eval_step_core cbs s
          (fun st => (u.eval_step st b).map (fun ob => (ob, rest))) with ⟨tr2, s2, o2⟩
      rw [hcore] at heq
      simp only [Prod.mk.injEq] at heq
      obtain ⟨rfl, rfl, ho⟩ := heq
      rw [ho] at hcore
      exact eval_step_core_brk_output hcore hend

theorem eval_step_body_stop {u : EvalUnit} {cbs : List Callback} {s : State}
    {b : Nat} {rest : List Nat} {tr : List Event} {s' : State} {rem' : List Nat}
    (hbatch : u.step_requires_iterator = false)
    (hstep : ∀ st, ∃ out, u.eval_step st b = .ok (out, true))
    (heq : _eval_step_body u cbs s (b :: rest) = (tr, s', .next rem')) :
    s'.should_stop = true := by
  unfold _eval_step_body at heq
  rw [hbatch] at heq
  simp only [Bool.false_eq_true, if_false] at heq
  rcases hcore : _eval_step_core cbs s
      (fun st => (u.eval_step st b).map (fun ob => (ob, rest))) with ⟨tr2, s2, o2⟩
  rw [hcore] at heq
  simp only [Prod.mk.injEq] at heq
  obtain ⟨rfl, rfl, ho⟩ := heq
  rw [ho] at hcore
  refine eval_step_core_stop hcore ?_
  intro st out stopB rem2 hd
  obtain ⟨out2, h2⟩ := hstep st
  rw [h2] at hd
  simp only [Except.map, Except.ok.injEq, Prod.mk.injEq] at hd
  exact hd.1.2.symm

theorem eval_step_body_benign {u : EvalUnit} {cbs : List Callback}
    (hbatch : u.step_requires_iterator = false)
    (hstep : ∀ st b', ∃ out, u.eval_step st b' = .ok (out, false))
    (hcb : ∀ c ∈ cbs, ∀ h s', c.hook h s' = .ok false) (s : State) (b : Nat)
    (rest : List Nat) :
    ∃ out, _eval_step_body u cbs s (b :: rest) =
      (Event.dataNext b :: (cbTrace 0 cbs.length .on_eval_step_start ++ Event.evalStep ::
        cbTrace 0 cbs.length .on_eval_step_end),
       _finish_step (_assign_step_output s out), .next rest) := by
  obtain ⟨out, hsb⟩ := hstep s b
  refine ⟨out, ?_⟩
  have hA := run_callback_fn_benign hcb 0 .on_eval_step_start s
  have hC := run_callback_fn_benign hcb 0 .on_eval_step_end (_assign_step_output s out)
  unfold _eval_step_body
  rw [hbatch]
  simp only [Bool.false_eq_true, if_false, _eval_step_core, hA, hsb, Except.map,
    applyStop_false, hC]

/-! ### Lemmas about the step loop -/

/-- A pending stop request is observed at the very next loop-condition check:
the loop exits immediately, running no further step and emitting no further
event, regardless of the remaining batches and of the step limits. -/
theorem eval_loop_stop_exit (u : EvalUnit) (cbs : List Callback) (fuel : Nat) (s : State)
    (rem : List Nat) (hs : s.should_stop = true) :
    _eval_loop u cbs (fuel + 1) s rem = some (Eff.pure s) := by
  simp [_eval_loop, hs]

/-- With a batch-taking step function and no batches left, the loop exits at
once (either the epoch is already done, or the first pull raises
StopIteration), leaving the state untouched. -/
theorem eval_loop_nil (u : EvalUnit) (cbs : List Callback) (fuel : Nat) (s : State)
    (hbatch : u.step_requires_iterator = false) :
    _eval_loop u cbs (fuel + 1) s [] = some (Eff.pure s) := by
  simp only [_eval_loop]
  split
  · rfl
  · simp only [_eval_step_body, hbatch, Bool.false_eq_true, if_false]
    rfl

/-- When the loop is entered and the body's exception handling breaks out
(a caught StopIteration), the loop returns normally with the body's state. -/
theorem eval_loop_brk {u : EvalUnit} {cbs : List Callback} {fuel : Nat} {s : State}
    {rem : List Nat} {tr : List Event} {s' : State}
    (hcond : (s.should_stop
      || _is_epoch_done s.eval_state.progress s.eval_state.max_steps_per_epoch
          s.eval_state.max_steps) = false)
    (hbody : _eval_step_body u cbs s rem = (tr, s', .brk)) :
    _eval_loop u cbs (fuel + 1) s rem = some { trace := tr, state := s', exc := none } := by
  simp only [_eval_loop, hcond, Bool.false_eq_true, if_false, hbody]

theorem eval_loop_pres {u : EvalUnit} {cbs : List Callback} :
    ∀ {fuel : Nat} {s : State} {rem : List Nat} {r : Eff},
    _eval_loop u cbs fuel s rem = some r →
    r.state.entry_point = s.entry_point ∧ r.state.module_modes = s.module_modes ∧
    r.state.eval_state.dataloader = s.eval_state.dataloader ∧
    r.state.eval_state.max_steps_per_epoch = s.eval_state.max_steps_per_epoch ∧
    r.state.eval_state.max_steps = s.eval_state.max_steps ∧
    r.state.eval_state.progress.num_epochs_completed =
      s.eval_state.progress.num_epochs_completed := by
  intro fuel
  induction fuel with
  | zero => intro s rem r heq; exact absurd heq (by simp [_eval_loop])
  | succ fuel ih =>
    intro s rem r heq
    simp only [_eval_loop] at heq
    split at heq
    · obtain rfl := Option.some.inj heq
      exact ⟨rfl, rfl, rfl, rfl, rfl, rfl⟩
    · rcases hbody : _eval_step_body u cbs s rem with ⟨tr, s', o⟩
      rw [hbody] at heq
      cases o with
      | brk =>
        obtain rfl := Option.some.inj
          (show some { trace := tr, state := s', exc := none } = some r from heq)
        exact eval_step_body_pres hbody
      | raised e =>
        obtain rfl := Option.some.inj
          (show some { trace := tr, state := s', exc := some e } = some r from heq)
        exact eval_step_body_pres hbody
      | next rem' =>
        have heq2 : (match _eval_loop u cbs fuel s' rem' with
          | none => none
          | some r2 =>
            some { trace := tr ++ r2.trace, state := r2.state, exc := r2.exc }) = some r := heq
        rcases hrec : _eval_loop u cbs fuel s' rem' with _ | r2
        · rw [hrec] at heq2
          exact Option.noConfusion (show (none : Option Eff) = some r from heq2)
        · rw [hrec] at heq2
          obtain rfl := Option.some.inj
            (show some { trace := tr ++ r2.trace, state := r2.state, exc := r2.exc }
              = some r from heq2)
          obtain ⟨b1, b2, b3, b4, b5, b6⟩ := eval_step_body_pres hbody
          obtain ⟨l1, l2, l3, l4, l5, l6⟩ := ih hrec
          exact ⟨l1.trans b1, l2.trans b2, l3.trans b3, l4.trans b4, l5.trans b5,
            l6.trans b6⟩

/-- Every event the step loop emits is a step-start or step-end callback
event, a step invocation, or a batch pull — in particular, no unit hook and
no epoch-level or exception hook is ever invoked inside the loop. -/
theorem eval_loop_trace_mem {u : EvalUnit} {cbs : List Callback} :
    ∀ {fuel : Nat} {s : State} {rem : List Nat} {r : Eff},
    _eval_loop u cbs fuel s rem = some r → ∀ {e : Event}, e ∈ r.trace →
    (∃ j, e = Event.cbHook j .on_eval_step_start) ∨
    (∃ j, e = Event.cbHook j .on_eval_step_end) ∨ e = Event.evalStep ∨
    (∃ b, e = Event.dataNext b) := by
  intro fuel
  induction fuel with
  | zero => intro s rem r heq; exact absurd heq (by simp [_eval_loop])
  | succ fuel ih =>
    intro s rem r heq e he
    simp only [_eval_loop] at heq
    split at heq
    · obtain rfl := Option.some.inj heq
      simp [Eff.pure] at he
    · rcases hbody : _eval_step_body u cbs s rem with ⟨tr, s', o⟩
      rw [hbody] at heq
      cases o with
      | brk =>
        obtain rfl := Option.some.inj
          (show some { trace := tr, state := s', exc := none } = some r from heq)
        exact eval_step_body_trace_mem hbody he
      | raised e2 =>
        obtain rfl := Option.some.inj
          (show some { trace := tr, state := s', exc := some e2 } = some r from heq)
        exact eval_step_body_trace_mem hbody he
      | next rem' =>
        have heq2 : (match _eval_loop u cbs fuel s' rem' with
          | none => none
          | some r2 =>
            some { trace := tr ++ r2.trace, state := r2.state, exc := r2.exc }) = some r := heq
        rcases hrec : _eval_loop u cbs fuel s' rem' with _ | r2
        · rw [hrec] at heq2
          exact Option.noConfusion (show (none : Option Eff) = some r from heq2)
        · rw [hrec] at heq2
          obtain rfl := Option.some.inj
            (show some { trace := tr ++ r2.trace, state := r2.state, exc := r2.exc }
              = some r from heq2)
          simp only [List.mem_append] at he
          rcases he with he | he
          · exact eval_step_body_trace_mem hbody he
          · exact ih hrec he

/-- If no step-end callback raises StopIteration, the loop keeps the
step-output slot empty: it is empty at every loop exit that is not an
exception propagation, provided it was empty on entry. -/
theorem eval_loop_output {u : EvalUnit} {cbs : List Callback}
    (hend : ∀ c ∈ cbs, ∀ s2, c.hook .on_eval_step_end s2 ≠ .error .stopIteration) :
    ∀ {fuel : Nat} {s : State} {rem : List Nat} {r : Eff},
    _eval_loop u cbs fuel s rem = some r →
    s.eval_state._step_output = none → r.exc = none →
    r.state.eval_state._step_output = none := by
  intro fuel
  induction fuel with
  | zero => intro s rem r heq; exact absurd heq (by simp [_eval_loop])
  | succ fuel ih =>
    intro s rem r heq hout hexc
    simp only [_eval_loop] at heq
    split at heq
    · obtain rfl := Option.some.inj heq
      exact hout
    · rcases hbody : _eval_step_body u cbs s rem with ⟨tr, s', o⟩
      rw [hbody] at heq
      cases o with
      | brk =>
        obtain rfl := Option.some.inj
          (show some { trace := tr, state := s', exc := none } = some r from heq)
        rw [eval_step_body_brk_output hbody hend]
        exact hout
      | raised e2 =>
        obtain rfl := Option.some.inj
          (show some { trace := tr, state := s', exc := some e2 } = some r from heq)
        simp at hexc
      | next rem' =>
        have heq2 : (match _eval_loop u cbs fuel s' rem' with
          | none => none
          | some r2 =>
            some { trace := tr ++ r2.trace, state := r2.state, exc := r2.exc }) = some r := heq
        rcases hrec : _eval_loop u cbs fuel s' rem' with _ | r2
        · rw [hrec] at heq2
          exact Option.noConfusion (show (none : Option Eff) = some r from heq2)
        · rw [hrec] at heq2
          obtain rfl := Option.some.inj
            (show some { trace := tr ++ r2.trace, state := r2.state, exc := r2.exc }
              = some r from heq2)
          obtain ⟨hp, -⟩ := eval_step_body_progress hbody
          show r2.state.eval_state._step_output = none
          exact ih hrec (hp rem' rfl).2 hexc

/-- With benign hooks (no exceptions, no stop requests), a batch-taking step
function, a per-epoch cap of `K` and at least `K` batches available, the step
loop performs exactly `K` steps and exits normally at the cap. -/
theorem eval_loop_benign {u : EvalUnit} {cbs : List Callback} {K : Nat}
    (hbatch : u.step_requires_iterator = false)
    (hstep : ∀ st b', ∃ out, u.eval_step st b' = .ok (out, false))
    (hcb : ∀ c ∈ cbs, ∀ h s', c.hook h s' = .ok false) :
    ∀ (fuel : Nat) (s : State) (rem : List Nat),
      s.should_stop = false →
      s.eval_state.max_steps_per_epoch = some K →
      s.eval_state.max_steps = none →
      s.eval_state.progress.num_steps_completed_in_epoch ≤ K →
      K - s.eval_state.progress.num_steps_completed_in_epoch ≤ rem.length →
      K - s.eval_state.progress.num_steps_completed_in_epoch < fuel →
      ∃ r, _eval_loop u cbs fuel s rem = some r ∧ r.exc = none ∧
        r.state.eval_state.progress.num_steps_completed_in_epoch = K ∧
        r.state.eval_state.progress.num_steps_completed =
          s.eval_state.progress.num_steps_completed +
            (K - s.eval_state.progress.num_steps_completed_in_epoch) := by
  intro fuel
  induction fuel with
  | zero => intro s rem _ _ _ _ _ hf; omega
  | succ fuel ih =>
    intro s rem hss hmspe hms hcK hlen hf
    rcases Nat.lt_or_ge s.eval_state.progress.num_steps_completed_in_epoch K with hlt | hge
    · have hcond : (s.should_stop || _is_epoch_done s.eval_state.progress
          s.eval_state.max_steps_per_epoch s.eval_state.max_steps) = false := by
        simp [hss, _is_epoch_done, hmspe, hms]
        omega
      rcases rem with _ | ⟨b, rest⟩
      · exfalso
        simp at hlen
        omega
      obtain ⟨out, hbody⟩ := eval_step_body_benign hbatch hstep hcb s b rest
      have h2count : (_finish_step (_assign_step_output s out)).eval_state.progress.num_steps_completed_in_epoch
          = s.eval_state.progress.num_steps_completed_in_epoch + 1 := by
        simp [finish_progress, assign_progress, Progress.increment_step]
      have h2total : (_finish_step (_assign_step_output s out)).eval_state.progress.num_steps_completed
          = s.eval_state.progress.num_steps_completed + 1 := by
        simp [finish_progress, assign_progress, Progress.increment_step]
      have hlen2 : (K : Nat) - s.eval_state.progress.num_steps_completed_in_epoch
          ≤ rest.length + 1 := by simpa using hlen
      obtain ⟨r2, hr2, hexc2, hcount2, htotal2⟩ := ih (_finish_step (_assign_step_output s out)) rest
        (by rw [finish_stop, assign_stop]; exact hss)
        (by rw [finish_mspe, assign_mspe]; exact hmspe)
        (by rw [finish_ms, assign_ms]; exact hms)
        (by rw [h2count]; omega)
        (by rw [h2count]; omega)
        (by rw [h2count]; omega)
      have hloop : _eval_loop u cbs (fuel + 1) s (b :: rest) =
          some { trace := (Event.dataNext b :: (cbTrace 0 cbs.length .on_eval_step_start ++
              Event.evalStep :: cbTrace 0 cbs.length .on_eval_step_end)) ++ r2.trace,
                 state := r2.state, exc := r2.exc } := by
        simp only [_eval_loop, hcond, Bool.false_eq_true, if_false, hbody, hr2]
      refine ⟨_, hloop, hexc2, hcount2, ?_⟩
      show r2.state.eval_state.progress.num_steps_completed = _
      rw [htotal2, h2total, h2count]
      omega
    · have hcond : (s.should_stop || _is_epoch_done s.eval_state.progress
          s.eval_state.max_steps_per_epoch s.eval_state.max_steps) = true := by
        simp [hss, _is_epoch_done, hmspe, hms]
        omega
      refine ⟨Eff.pure s, ?_, rfl, ?_, ?_⟩
      · simp [_eval_loop, hcond]
      · show s.eval_state.progress.num_steps_completed_in_epoch = K
        omega
      · show s.eval_state.progress.num_steps_completed = _
        omega

/-! ### Lemmas about the pre-loop and post-loop phases -/

theorem eval_pre_start_spec (u : EvalUnit) (cbs : List Callback) (s0 : State) :
    (_eval_pre_start u cbs s0).state.eval_state = s0.eval_state ∧
    (_eval_pre_start u cbs s0).state.entry_point = s0.entry_point ∧
    (_eval_pre_start u cbs s0).state.module_modes =
      _set_module_training_mode s0.module_modes false := by
  unfold _eval_pre_start
  rcases Eff.then_state_cases
      (runUnitHook .on_eval_start u.on_eval_start
        { s0 with module_modes := _set_module_training_mode s0.module_modes false })
      (_run_callback_fn cbs 0 .on_eval_start) with hc | hc <;>
    rw [hc] <;>
    simp [runUnitHook_eval_state, runUnitHook_entry, runUnitHook_modes,
      run_callback_fn_eval_state, run_callback_fn_entry, run_callback_fn_modes]

theorem eval_pre_guard_spec (u : EvalUnit) (cbs : List Callback) (s : State) :
    (if s.eval_state.progress.num_steps_completed_in_epoch == 0 then
        (runUnitHook .on_eval_epoch_start u.on_eval_epoch_start s).then
          (_run_callback_fn cbs 0 .on_eval_epoch_start)
      else Eff.pure s).state.eval_state = s.eval_state ∧
    (if s.eval_state.progress.num_steps_completed_in_epoch == 0 then
        (runUnitHook .on_eval_epoch_start u.on_eval_epoch_start s).then
          (_run_callback_fn cbs 0 .on_eval_epoch_start)
      else Eff.pure s).state.entry_point = s.entry_point ∧
    (if s.eval_state.progress.num_steps_completed_in_epoch == 0 then
        (runUnitHook .on_eval_epoch_start u.on_eval_epoch_start s).then
          (_run_callback_fn cbs 0 .on_eval_epoch_start)
      else Eff.pure s).state.module_modes = s.module_modes := by
  split
  · rcases Eff.then_state_cases
        (runUnitHook .on_eval_epoch_start u.on_eval_epoch_start s)
        (_run_callback_fn cbs 0 .on_eval_epoch_start) with hc | hc <;>
      rw [hc] <;>
      simp [runUnitHook_eval_state, runUnitHook_entry, runUnitHook_modes,
        run_callback_fn_eval_state, run_callback_fn_entry, run_callback_fn_modes]
  · exact ⟨rfl, rfl, rfl⟩

theorem eval_pre_spec (u : EvalUnit) (cbs : List Callback) (s0 : State) :
    (_eval_pre u cbs s0).state.eval_state = s0.eval_state ∧
    (_eval_pre u cbs s0).state.entry_point = s0.entry_point ∧
    (_eval_pre u cbs s0).state.module_modes =
      _set_module_training_mode s0.module_modes false := by
  obtain ⟨p1, p2, p3⟩ := eval_pre_start_spec u cbs s0
  unfold _eval_pre
  rcases Eff.then_state_cases (_eval_pre_start u cbs s0)
      (fun s => if s.eval_state.progress.num_steps_completed_in_epoch == 0 then
          (runUnitHook .on_eval_epoch_start u.on_eval_epoch_start s).then
            (_run_callback_fn cbs 0 .on_eval_epoch_start)
        else Eff.pure s) with hc | hc <;> rw [hc]
  · exact ⟨p1, p2, p3⟩
  · obtain ⟨g1, g2, g3⟩ := eval_pre_guard_spec u cbs (_eval_pre_start u cbs s0).state
    exact ⟨g1.trans p1, g2.trans p2, g3.trans p3⟩

theorem eval_pre_start_hooks {u : EvalUnit} {cbs : List Callback} {s0 : State} {e : Event}
    (he : e ∈ (_eval_pre_start u cbs s0).trace) : hookOf e = some .on_eval_start := by
  unfold _eval_pre_start at he
  rcases Eff.then_trace_mem he with he | he
  · rw [runUnitHook_trace] at he
    simp only [List.mem_singleton] at he
    subst he
    rfl
  · obtain ⟨j, rfl⟩ := run_callback_fn_trace_mem he
    rfl

theorem eval_pre_hooks {u : EvalUnit} {cbs : List Callback} {s0 : State} {e : Event}
    (he : e ∈ (_eval_pre u cbs s0).trace) :
    hookOf e = some .on_eval_start ∨ hookOf e = some .on_eval_epoch_start := by
  unfold _eval_pre at he
  rcases Eff.then_trace_mem he with he | he
  · exact Or.inl (eval_pre_start_hooks he)
  · have he2 : e ∈ (if (_eval_pre_start u cbs s0).state.eval_state.progress.num_steps_completed_in_epoch == 0 then
        (runUnitHook .on_eval_epoch_start u.on_eval_epoch_start
          (_eval_pre_start u cbs s0).state).then
          (_run_callback_fn cbs 0 .on_eval_epoch_start)
      else Eff.pure (_eval_pre_start u cbs s0).state).trace := he
    split at he2
    · rcases Eff.then_trace_mem he2 with he3 | he3
      · rw [runUnitHook_trace] at he3
        simp only [List.mem_singleton] at he3
        subst he3
        exact Or.inr rfl
      · obtain ⟨j, rfl⟩ := run_callback_fn_trace_mem he3
        exact Or.inr rfl
    · simp [Eff.pure] at he2

theorem eval_post_spec {u : EvalUnit} {cbs : List Callback} {prior : List Bool} {prev : Nat}
    {s : State} (hok : (_eval_post u cbs prior prev s).exc = none) :
    (_eval_post u cbs prior prev s).state.entry_point = s.entry_point ∧
    (_eval_post u cbs prior prev s).state.module_modes = prior ∧
    (_eval_post u cbs prior prev s).state.eval_state.dataloader = s.eval_state.dataloader ∧
    (_eval_post u cbs prior prev s).state.eval_state.max_steps_per_epoch =
      s.eval_state.max_steps_per_epoch ∧
    (_eval_post u cbs prior prev s).state.eval_state.max_steps = s.eval_state.max_steps ∧
    (_eval_post u cbs prior prev s).state.eval_state.progress =
      s.eval_state.progress.increment_epoch ∧
    (_eval_post u cbs prior prev s).state.eval_state._step_output =
      s.eval_state._step_output ∧
    Event.unitHook .on_eval_epoch_end ∈ (_eval_post u cbs prior prev s).trace ∧
    Event.unitHook .on_eval_end ∈ (_eval_post u cbs prior prev s).trace := by
  simp only [_eval_post] at hok ⊢
  obtain ⟨h5, hstF, -, htrF⟩ := Eff.then_exc_none hok
  obtain ⟨h4, hstE, -, htrE⟩ := Eff.then_exc_none h5
  obtain ⟨h3, hstD, -, htrD⟩ := Eff.then_exc_none h4
  obtain ⟨h2, hstC, -, htrC⟩ := Eff.then_exc_none h3
  obtain ⟨h1, hstB, -, htrB⟩ := Eff.then_exc_none h2
  obtain ⟨h0, hstA, -, htrA⟩ := Eff.then_exc_none h1
  refine ⟨?_, ?_, ?_, ?_, ?_, ?_, ?_, ?_, ?_⟩
  · simp only [hstF, hstE, hstD, hstC, hstB, hstA]
    simp [Eff.pure, runUnitHook_entry, run_callback_fn_entry]
  · simp only [hstF, hstE, hstD, hstC, hstB, hstA]
    simp [Eff.pure, runUnitHook_modes, run_callback_fn_modes]
  · simp only [hstF, hstE, hstD, hstC, hstB, hstA]
    simp [Eff.pure, runUnitHook_eval_state, run_callback_fn_eval_state]
  · simp only [hstF, hstE, hstD, hstC, hstB, hstA]
    simp [Eff.pure, runUnitHook_eval_state, run_callback_fn_eval_state]
  · simp only [hstF, hstE, hstD, hstC, hstB, hstA]
    simp [Eff.pure, runUnitHook_eval_state, run_callback_fn_eval_state]
  · simp only [hstF, hstE, hstD, hstC, hstB, hstA]
    simp [Eff.pure, runUnitHook_eval_state, run_callback_fn_eval_state]
  · simp only [hstF, hstE, hstD, hstC, hstB, hstA]
    simp [Eff.pure, runUnitHook_eval_state, run_callback_fn_eval_state]
  · simp only [htrF, htrE, htrD, htrC, htrB, htrA]
    simp [runUnitHook_trace]
  · simp only [htrF, htrE, htrD, htrC, htrB, htrA]
    simp [runUnitHook_trace]

theorem eval_post_hooks {u : EvalUnit} {cbs : List Callback} {prior : List Bool} {prev : Nat}
    {s : State} {e : Event} (he : e ∈ (_eval_post u cbs prior prev s).trace) :
    hookOf e = some .on_eval_epoch_end ∨ hookOf e = some .on_eval_end ∨ hookOf e = none := by
  simp only [_eval_post] at he
  rcases Eff.then_trace_mem he with he | he
  rotate_left
  · simp [Eff.pure] at he
  rcases Eff.then_trace_mem he with he | he
  rotate_left
  · obtain ⟨j, rfl⟩ := run_callback_fn_trace_mem he
    exact Or.inr (Or.inl rfl)
  rcases Eff.then_trace_mem he with he | he
  rotate_left
  · rw [runUnitHook_trace] at he
    simp only [List.mem_singleton] at he
    subst he
    exact Or.inr (Or.inl rfl)
  rcases Eff.then_trace_mem he with he | he
  rotate_left
  · simp [Eff.pure] at he
  rcases Eff.then_trace_mem he with he | he
  rotate_left
  · obtain ⟨j, rfl⟩ := run_callback_fn_trace_mem he
    exact Or.inl rfl
  rcases Eff.then_trace_mem he with he | he
  rotate_left
  · rw [runUnitHook_trace] at he
    simp only [List.mem_singleton] at he
    subst he
    exact Or.inl rfl
  · -- the warn effect
    rcases hw : decide (0 < ((s.eval_state.progress.num_steps_completed_in_epoch : Int)
        - (prev : Int)).natAbs) with _ | _
    · rw [hw] at he
      simp only [Bool.false_eq_true, if_false, List.mem_singleton] at he
      subst he
      exact Or.inr (Or.inr rfl)
    · rw [hw] at he
      simp at he

/-- With benign epoch-end and end hooks, the post-loop phase returns the
state with the epoch counted and the modes restored, raises nothing, and —
when no step was completed since `prev` — logs the empty-dataloader warning
and still fires the epoch-end and end hooks. -/
theorem eval_post_benign {u : EvalUnit} {cbs : List Callback}
    (hep : ∀ s, u.on_eval_epoch_end s = .ok false)
    (hfin : ∀ s, u.on_eval_end s = .ok false)
    (hcb : ∀ c ∈ cbs, ∀ h s', c.hook h s' = .ok false) (prior : List Bool) (prev : Nat)
    (s : State) :
    _eval_post u cbs prior prev s =
      { trace := (if 0 < ((s.eval_state.progress.num_steps_completed_in_epoch : Int)
            - (prev : Int)).natAbs then ([] : List Event) else [Event.warnEmpty]) ++
          Event.unitHook .on_eval_epoch_end :: (cbTrace 0 cbs.length .on_eval_epoch_end ++
            Event.unitHook .on_eval_end :: cbTrace 0 cbs.length .on_eval_end),
        state := { s with
          eval_state := { s.eval_state with
            progress := s.eval_state.progress.increment_epoch },
          module_modes := prior },
        exc := none } := by
  simp [_eval_post, Eff.then, runUnitHook_ok, hep, hfin, run_callback_fn_benign hcb,
    applyStop_false, Eff.pure]

/-- With benign start and epoch-start hooks and no step yet completed in the
epoch, the pre-loop phase sets the modules to eval mode and fires
`on_eval_start` then `on_eval_epoch_start` (unit then callbacks each),
raising nothing. -/
theorem eval_pre_benign {u : EvalUnit} {cbs : List Callback}
    (hstart : ∀ s, u.on_eval_start s = .ok false)
    (hepoch : ∀ s, u.on_eval_epoch_start s = .ok false)
    (hcb : ∀ c ∈ cbs, ∀ h s', c.hook h s' = .ok false) (s0 : State)
    (hcnt : s0.eval_state.progress.num_steps_completed_in_epoch = 0) :
    _eval_pre u cbs s0 =
      { trace := Event.unitHook .on_eval_start :: (cbTrace 0 cbs.length .on_eval_start ++
          Event.unitHook .on_eval_epoch_start :: cbTrace 0 cbs.length .on_eval_epoch_start),
        state := { s0 with module_modes := _set_module_training_mode s0.module_modes false },
        exc := none } := by
  simp [_eval_pre, _eval_pre_start, Eff.then, runUnitHook_ok, hstart, hepoch,
    run_callback_fn_benign hcb, applyStop_false, Eff.pure, hcnt]

/-! ### Lemmas about the whole `_evaluate_impl` and `evaluate` -/

/-- How `_evaluate_impl` can return `some r`: the pre-phase raised (then `r`
is the pre-phase effect), or the loop ran; then either the loop left a
pending exception (post-phase skipped) or the post-phase ran and `r` is the
full composition. -/
theorem impl_cases {u : EvalUnit} {cbs : List Callback} {fuel : Nat} {s0 : State} {r : Eff}
    (heq : _evaluate_impl u cbs fuel s0 = some r) :
    ((_eval_pre u cbs s0).exc ≠ none ∧ r = _eval_pre u cbs s0) ∨
    (∃ rL, (_eval_pre u cbs s0).exc = none ∧
      _eval_loop u cbs fuel (_eval_pre u cbs s0).state
        (_eval_pre u cbs s0).state.eval_state.dataloader = some rL ∧
      ((rL.exc ≠ none ∧
         r = { trace := (_eval_pre u cbs s0).trace ++ rL.trace, state := rL.state,
               exc := rL.exc }) ∨
       (rL.exc = none ∧
         r = { trace := (_eval_pre u cbs s0).trace ++ rL.trace ++
                  (_eval_post u cbs s0.module_modes
                    (_eval_pre u cbs s0).state.eval_state.progress.num_steps_completed_in_epoch
                    rL.state).trace,
               state := (_eval_post u cbs s0.module_modes
                    (_eval_pre u cbs s0).state.eval_state.progress.num_steps_completed_in_epoch
                    rL.state).state,
               exc := (_eval_post u cbs s0.module_modes
                    (_eval_pre u cbs s0).state.eval_state.progress.num_steps_completed_in_epoch
                    rL.state).exc }))) := by
  simp only [_evaluate_impl] at heq
  split at heq
  · rename_i e hpre
    exact Or.inl ⟨by simp [hpre], (Option.some.inj heq).symm⟩
  · rename_i hpre
    split at heq
    · exact Option.noConfusion heq
    · rename_i rL hloop
      split at heq
      · rename_i e hLexc
        refine Or.inr ⟨rL, hpre, hloop, Or.inl ⟨by simp [hLexc], ?_⟩⟩
        rw [(Option.some.inj heq).symm, hLexc]
      · rename_i hLexc
        exact Or.inr ⟨rL, hpre, hloop, Or.inr ⟨hLexc, (Option.some.inj heq).symm⟩⟩

/-- Every run of `_evaluate_impl` that returns without a pending exception
has: the entry point, the tracked modules and the dataloader configuration
unchanged, exactly one more epoch counted with the in-epoch step counter
reset, and both the `on_eval_epoch_end` and `on_eval_end` unit hooks in its
trace. -/
theorem impl_ok_spec {u : EvalUnit} {cbs : List Callback} {fuel : Nat} {s0 : State} {r : Eff}
    (heq : _evaluate_impl u cbs fuel s0 = some r) (hok : r.exc = none) :
    r.state.entry_point = s0.entry_point ∧
    r.state.module_modes = s0.module_modes ∧
    r.state.eval_state.dataloader = s0.eval_state.dataloader ∧
    r.state.eval_state.max_steps_per_epoch = s0.eval_state.max_steps_per_epoch ∧
    r.state.eval_state.max_steps = s0.eval_state.max_steps ∧
    r.state.eval_state.progress.num_epochs_completed =
      s0.eval_state.progress.num_epochs_completed + 1 ∧
    r.state.eval_state.progress.num_steps_completed_in_epoch = 0 ∧
    Event.unitHook .on_eval_epoch_end ∈ r.trace ∧
    Event.unitHook .on_eval_end ∈ r.trace := by
  rcases impl_cases heq with ⟨hpre, rfl⟩ | ⟨rL, hpre, hloop, ⟨hL, rfl⟩ | ⟨hL, rfl⟩⟩
  · exact absurd hok hpre
  · exact absurd hok hL
  · have hpost : (_eval_post u cbs s0.module_modes
        (_eval_pre u cbs s0).state.eval_state.progress.num_steps_completed_in_epoch
        rL.state).exc = none := hok
    obtain ⟨q1, q2, q3, q4, q5, q6, -, q8, q9⟩ := eval_post_spec hpost
    obtain ⟨l1, l2, l3, l4, l5, l6⟩ := eval_loop_pres hloop
    obtain ⟨p1, p2, p3⟩ := eval_pre_spec u cbs s0
    refine ⟨?_, ?_, ?_, ?_, ?_, ?_, ?_, ?_, ?_⟩
    · exact q1.trans (l1.trans p2)
    · exact q2
    · exact q3.trans (l3.trans (congrArg PhaseState.dataloader p1))
    · exact q4.trans (l4.trans (congrArg PhaseState.max_steps_per_epoch p1))
    · exact q5.trans (l5.trans (congrArg PhaseState.max_steps p1))
    · show (_eval_post u cbs s0.module_modes _
          rL.state).state.eval_state.progress.num_epochs_completed = _
      rw [q6]
      simp only [Progress.increment_epoch]
      rw [l6, congrArg Progress.num_epochs_completed (congrArg PhaseState.progress p1)]
    · show (_eval_post u cbs s0.module_modes _
          rL.state).state.eval_state.progress.num_steps_completed_in_epoch = 0
      rw [q6]
      simp [Progress.increment_epoch]
    · simp only [List.mem_append]
      exact Or.inr q8
    · simp only [List.mem_append]
      exact Or.inr q9

/-- The function `_evaluate_impl` never invokes an `on_exception` hook: every event in its
trace belongs to one of the ordinary lifecycle hooks. -/
theorem impl_trace_hooks {u : EvalUnit} {cbs : List Callback} {fuel : Nat} {s0 : State}
    {r : Eff} (heq : _evaluate_impl u cbs fuel s0 = some r) {e : Event} (he : e ∈ r.trace) :
    hookOf e ≠ some HookName.on_exception := by
  rcases impl_cases heq with ⟨hpre, rfl⟩ | ⟨rL, hpre, hloop, ⟨hL, rfl⟩ | ⟨hL, rfl⟩⟩
  · rcases eval_pre_hooks he with h | h <;> simp [h]
  · simp only [List.mem_append] at he
    rcases he with he | he
    · rcases eval_pre_hooks he with h | h <;> simp [h]
    · rcases eval_loop_trace_mem hloop he with ⟨j, rfl⟩ | ⟨j, rfl⟩ | rfl | ⟨b, rfl⟩ <;>
        simp [hookOf]
  · simp only [List.mem_append] at he
    rcases he with (he | he) | he
    · rcases eval_pre_hooks he with h | h <;> simp [h]
    · rcases eval_loop_trace_mem hloop he with ⟨j, rfl⟩ | ⟨j, rfl⟩ | rfl | ⟨b, rfl⟩ <;>
        simp [hookOf]
    · rcases eval_post_hooks he with h | h | h <;> simp [h]

/-- A successful `evaluate` run is exactly a successful `_evaluate_impl` run
on the freshly constructed state: no exception-path processing happened. -/
theorem evaluate_ok {u : EvalUnit} {dl : List Nat} {cbs : List Callback} {mspe : Option Nat}
    {modes : List Bool} {fuel : Nat} {r : Eff}
    (heq : evaluate u dl cbs mspe modes fuel = some r) (hok : r.exc = none) :
    _evaluate_impl u cbs fuel (initState dl mspe modes) = some r := by
  simp only [evaluate] at heq
  split at heq
  · exact Option.noConfusion heq
  · rename_i ri himpl
    split at heq
    · obtain rfl := Option.some.inj heq
      exact himpl
    · obtain rfl := Option.some.inj (show some _ = some r from heq)
      exact absurd hok (by simp)

/-- Forward composition: when the pre-phase succeeds, the loop returns `rL`
and `rL` carries no exception, `_evaluate_impl` is the full composition with
the post-phase. -/
theorem impl_of_loop {u : EvalUnit} {cbs : List Callback} {fuel : Nat} {s0 : State} {rL : Eff}
    (hpreexc : (_eval_pre u cbs s0).exc = none)
    (hloop : _eval_loop u cbs fuel (_eval_pre u cbs s0).state
      (_eval_pre u cbs s0).state.eval_state.dataloader = some rL)
    (hLexc : rL.exc = none) :
    _evaluate_impl u cbs fuel s0 = some
      { trace := (_eval_pre u cbs s0).trace ++ rL.trace ++
          (_eval_post u cbs s0.module_modes
            (_eval_pre u cbs s0).state.eval_state.progress.num_steps_completed_in_epoch
            rL.state).trace,
        state := (_eval_post u cbs s0.module_modes
            (_eval_pre u cbs s0).state.eval_state.progress.num_steps_completed_in_epoch
            rL.state).state,
        exc := (_eval_post u cbs s0.module_modes
            (_eval_pre u cbs s0).state.eval_state.progress.num_steps_completed_in_epoch
            rL.state).exc } := by
  simp only [_evaluate_impl, hpreexc, hloop, hLexc]

/-- A successful `_evaluate_impl` run is returned by `evaluate` unchanged. -/
theorem evaluate_of_impl {u : EvalUnit} {dl : List Nat} {cbs : List Callback}
    {mspe : Option Nat} {modes : List Bool} {fuel : Nat} {r : Eff}
    (himpl : _evaluate_impl u cbs fuel (initState dl mspe modes) = some r)
    (hok : r.exc = none) :
    evaluate u dl cbs mspe modes fuel = some r := by
  simp only [evaluate, himpl, hok]

/-- If the `on_eval_epoch_start` unit hook appears in the pre-phase trace,
then no step of the epoch had been completed when the run began. -/
theorem eval_pre_epoch_start_mem_count {u : EvalUnit} {cbs : List Callback} {s0 : State}
    (he : Event.unitHook .on_eval_epoch_start ∈ (_eval_pre u cbs s0).trace) :
    s0.eval_state.progress.num_steps_completed_in_epoch = 0 := by
  unfold _eval_pre at he
  rcases Eff.then_trace_mem he with he | he
  · exact absurd (eval_pre_start_hooks he) (by simp [hookOf])
  · have he2 : Event.unitHook .on_eval_epoch_start ∈
        (if (_eval_pre_start u cbs s0).state.eval_state.progress.num_steps_completed_in_epoch
            == 0 then
          (runUnitHook .on_eval_epoch_start u.on_eval_epoch_start
            (_eval_pre_start u cbs s0).state).then
            (_run_callback_fn cbs 0 .on_eval_epoch_start)
        else Eff.pure (_eval_pre_start u cbs s0).state).trace := he
    split at he2
    · rename_i hcond
      have h1 := (eval_pre_start_spec u cbs s0).1
      rw [h1] at hcond
      simpa using hcond
    · simp [Eff.pure] at he2

/-- Conversely: if the start hooks did not raise and no step of the epoch was
completed yet, the `on_eval_epoch_start` unit hook fires in the pre-phase. -/
theorem eval_pre_epoch_start_mem {u : EvalUnit} {cbs : List Callback} {s0 : State}
    (hstart : (_eval_pre_start u cbs s0).exc = none)
    (hcnt : s0.eval_state.progress.num_steps_completed_in_epoch = 0) :
    Event.unitHook .on_eval_epoch_start ∈ (_eval_pre u cbs s0).trace := by
  unfold _eval_pre
  refine Eff.mem_then_right hstart ?_
  have hsg : (_eval_pre_start u cbs s0).state.eval_state.progress.num_steps_completed_in_epoch
      = 0 := by
    rw [(eval_pre_start_spec u cbs s0).1]
    exact hcnt
  split
  · refine Eff.mem_then_left ?_
    rw [runUnitHook_trace]
    exact List.mem_singleton_self _
  · rename_i hcond
    exact absurd (by simp [hsg]) hcond

/-- The trace of `_evaluate_impl` always begins with the pre-phase trace. -/
theorem impl_trace_pre {u : EvalUnit} {cbs : List Callback} {fuel : Nat} {s0 : State}
    {r : Eff} (heq : _evaluate_impl u cbs fuel s0 = some r) {e : Event}
    (he : e ∈ (_eval_pre u cbs s0).trace) : e ∈ r.trace := by
  rcases impl_cases heq with ⟨hpre, rfl⟩ | ⟨rL, hpre, hloop, ⟨hL, rfl⟩ | ⟨hL, rfl⟩⟩
  · exact he
  · simp only [List.mem_append]
    exact Or.inl he
  · simp only [List.mem_append]
    exact Or.inl (Or.inl he)

/-! ### Concrete units and callbacks used in counterexamples and witnesses -/

/-- A unit whose step function raises a non-StopIteration exception. -/
def raiseUnit : EvalUnit := { eval_step := fun _ _ => .error (.other 3) }

/-- A unit whose step function returns the output 7 and never raises. -/
def outUnit : EvalUnit := { eval_step := fun _ _ => .ok (7, false) }

/-- A callback whose `on_eval_step_end` hook raises StopIteration. -/
def stopIterEndCb : Callback :=
  { hook := fun h _ => if h == .on_eval_step_end then .error .stopIteration else .ok false }

/-- A callback whose `on_eval_step_end` hook raises unless it observes the
step output 7 in `last_step_output` — a probe that the output is set during
the step-end hook window. -/
def probeEndCb : Callback :=
  { hook := fun h s => if h == .on_eval_step_end then
      (if s.eval_state._step_output == some 7 then .ok false else .error (.other 99))
    else .ok false }

/-! ### The claims -/

/-- C1 (corrected): in the evaluate loop driver, for every executed step,
`on_eval_step_start` is invoked on each callback in registration order before
the unit's `eval_step` runs, and `on_eval_step_end` on each callback after
`eval_step` returns; contrary to the claim, no step-level hook is invoked on
the unit itself — the driver dispatches the step hooks to callbacks only. -/
theorem C1_step_hooks_callbacks_only (u : EvalUnit) (cbs : List Callback) (s : State)
    (b : Nat) (rest : List Nat) (tr : List Event) (s' : State) (rem' : List Nat)
    (hbatch : u.step_requires_iterator = false)
    (heq : _eval_step_body u cbs s (b :: rest) = (tr, s', .next rem')) :
    tr = Event.dataNext b :: (cbTrace 0 cbs.length .on_eval_step_start ++
      Event.evalStep :: cbTrace 0 cbs.length .on_eval_step_end) ∧
    ∀ hk, Event.unitHook hk ∉ tr := by
  constructor
  · unfold _eval_step_body at heq
    rw [hbatch] at heq
    simp only [Bool.false_eq_true, if_false] at heq
    rcases hcore : _eval_step_core cbs s
        (fun st => (u.eval_step st b).map (fun ob => (ob, rest))) with ⟨tr2, s2, o2⟩
    rw [hcore] at heq
    simp only [Prod.mk.injEq] at heq
    obtain ⟨htr, -, ho⟩ := heq
    rw [ho] at hcore
    rw [← htr, eval_step_core_next_trace hcore]
  · intro hk hmem
    rcases eval_step_body_trace_mem heq hmem with ⟨j, h⟩ | ⟨j, h⟩ | h | ⟨bb, h⟩ <;>
      simp at h

/-- C1 counterexample: a one-batch run with one callback completes one step,
yet no `on_eval_step_start`/`on_eval_step_end` hook is ever invoked on the
unit — refuting "the hook is invoked on the unit and then on each
callback". -/
theorem C1_counterexample :
    (evaluate {} [5] [{}] none [] 5).map (fun r =>
      (r.state.eval_state.progress.num_steps_completed,
        decide (Event.unitHook .on_eval_step_start ∈ r.trace),
        decide (Event.unitHook .on_eval_step_end ∈ r.trace))) = some (1, false, false) := by
  decide

/-- C1 witness: the amended fact evaluated on a concrete step. -/
theorem C1_witness :
    ([Event.dataNext 5, Event.cbHook 0 .on_eval_step_start, Event.evalStep,
        Event.cbHook 0 .on_eval_step_end] : List Event) =
      Event.dataNext 5 :: (cbTrace 0 1 .on_eval_step_start ++
        Event.evalStep :: cbTrace 0 1 .on_eval_step_end) :=
  (C1_step_hooks_callbacks_only {} [{}] (initState [5] none []) 5 []
    [Event.dataNext 5, Event.cbHook 0 .on_eval_step_start, Event.evalStep,
      Event.cbHook 0 .on_eval_step_end]
    { entry_point := .EVALUATE,
      eval_state := { dataloader := [5], max_steps_per_epoch := none, max_steps := none,
                      progress := { num_steps_completed := 1,
                                    num_steps_completed_in_epoch := 1,
                                    num_epochs_completed := 0 },
                      _step_output := none },
      should_stop := false, module_modes := [] }
    [] rfl (by decide)).1

/-- C2 (corrected): the tracked modules' training modes are recorded before
the loop and restored on every exit path on which no exception propagates;
when an unhandled exception is raised inside a step or hook, the restoration
at the end of `_evaluate_impl` is skipped and the modules stay in eval
mode. -/
theorem C2_mode_restore (u : EvalUnit) (dl : List Nat) (cbs : List Callback)
    (mspe : Option Nat) (modes : List Bool) (fuel : Nat) (r : Eff)
    (heq : evaluate u dl cbs mspe modes fuel = some r) (hok : r.exc = none) :
    r.state.module_modes = modes :=
  (impl_ok_spec (evaluate_ok heq hok) hok).2.1

/-- C2 counterexample: when `eval_step` raises, the exception propagates and
the tracked module (prior mode `true`) is left in eval mode (`false`) — the
restoration is not executed on the exception path. -/
theorem C2_counterexample :
    (evaluate raiseUnit [10] [] none [true] 5).map
      (fun r => (r.exc, r.state.module_modes)) = some (some (.other 3), [false]) := by
  decide

/-- C2 witness: a benign run restores the recorded modes. -/
theorem C2_witness :
    (evaluate {} [1] [] none [true, false] 3).map (fun r => r.state.module_modes)
      = some [true, false] := by
  rcases hr : evaluate {} [1] [] none [true, false] 3 with _ | r
  · exact absurd hr (by decide)
  · have hexc : r.exc = none := by
      have h2 : (evaluate {} [1] [] none [true, false] 3).map Eff.exc = some none := by decide
      rw [hr] at h2
      simpa using h2
    have h := C2_mode_restore {} [1] [] none [true, false] 3 r hr hexc
    simp [h]

/-- C3: a stop requested during a step takes effect only at the next
loop-condition check: (1) once the flag is set, the loop exits immediately —
overriding any remaining limit check — running no further step; (2) a
completed step whose `eval_step` requested the stop still runs its end-hooks
and leaves the flag set; (3) on every normally completed run the
`on_eval_epoch_end` unit hook still fires and the epoch counter is
incremented by one. -/
theorem C3_stop_semantics :
    (∀ (u : EvalUnit) (cbs : List Callback) (fuel : Nat) (s : State) (rem : List Nat),
      s.should_stop = true → _eval_loop u cbs (fuel + 1) s rem = some (Eff.pure s)) ∧
    (∀ (u : EvalUnit) (cbs : List Callback) (s : State) (b : Nat) (rest : List Nat)
      (tr : List Event) (s' : State) (rem' : List Nat),
      u.step_requires_iterator = false →
      (∀ st, ∃ out, u.eval_step st b = .ok (out, true)) →
      _eval_step_body u cbs s (b :: rest) = (tr, s', .next rem') →
      s'.should_stop = true) ∧
    (∀ (u : EvalUnit) (cbs : List Callback) (fuel : Nat) (s0 : State) (r : Eff),
      _evaluate_impl u cbs fuel s0 = some r → r.exc = none →
      Event.unitHook .on_eval_epoch_end ∈ r.trace ∧
      r.state.eval_state.progress.num_epochs_completed =
        s0.eval_state.progress.num_epochs_completed + 1) := by
  refine ⟨?_, ?_, ?_⟩
  · intro u cbs fuel s rem hs
    exact eval_loop_stop_exit u cbs fuel s rem hs
  · intro u cbs s b rest tr s' rem' hbatch hstep heq
    exact eval_step_body_stop hbatch hstep heq
  · intro u cbs fuel s0 r heq hok
    obtain ⟨-, -, -, -, -, h6, -, h8, -⟩ := impl_ok_spec heq hok
    exact ⟨h8, h6⟩

/-- C3 witness: with the stop flag set, the loop exits at once even though
two batches remain and no step cap is set. -/
theorem C3_witness :
    _eval_loop {} [] (3 + 1)
      { entry_point := .EVALUATE,
        eval_state := { dataloader := [1, 2] },
        should_stop := true, module_modes := [] } [1, 2] =
    some (Eff.pure
      { entry_point := .EVALUATE,
        eval_state := { dataloader := [1, 2] },
        should_stop := true, module_modes := [] }) :=
  C3_stop_semantics.1 {} [] 3
    { entry_point := .EVALUATE,
      eval_state := { dataloader := [1, 2] },
      should_stop := true, module_modes := [] } [1, 2] rfl

/-- C4: when an exception escapes a step or hook, `evaluate` invokes
`on_exception` on the unit, then on each callback in order, and re-raises the
same exception object to the caller (provided the exception handlers
themselves return normally, as handlers that raise replace the exception in
Python too). -/
theorem C4_exception_path (u : EvalUnit) (dl : List Nat) (cbs : List Callback)
    (mspe : Option Nat) (modes : List Bool) (fuel : Nat) (ri : Eff) (e : PyErr)
    (himpl : _evaluate_impl u cbs fuel (initState dl mspe modes) = some ri)
    (hexc : ri.exc = some e)
    (hu : ∃ b, u.on_exception ri.state e = .ok b)
    (hcb : ∀ c ∈ cbs, ∀ s', ∃ b, c.hook .on_exception s' = .ok b) :
    ∃ r, evaluate u dl cbs mspe modes fuel = some r ∧ r.exc = some e ∧
      r.trace = ri.trace ++ Event.unitHook .on_exception ::
        cbTrace 0 cbs.length .on_exception := by
  obtain ⟨b, hb⟩ := hu
  have hb2 : (fun s => u.on_exception s e) ri.state = Except.ok b := hb
  have hX1 : runUnitHook .on_exception (fun s => u.on_exception s e) ri.state =
      { trace := [Event.unitHook .on_exception], state := applyStop ri.state b,
        exc := none } := runUnitHook_ok hb2
  have hXcb := run_callback_fn_ok hcb 0 (applyStop ri.state b)
  have hXtr := run_callback_fn_exc_none_trace hXcb
  refine ⟨{ trace := ri.trace ++ Event.unitHook .on_exception ::
                (_run_callback_fn cbs 0 .on_exception (applyStop ri.state b)).trace,
            state := (_run_callback_fn cbs 0 .on_exception (applyStop ri.state b)).state,
            exc := some e }, ?_, rfl, ?_⟩
  · simp only [evaluate, himpl, hexc, hX1, Eff.then, hXcb]
    simp
  · simp only [hXtr]

/-- C4 witness: the concrete failing run ends with `on_exception` and
re-raises the original non-StopIteration exception. -/
theorem C4_witness :
    (evaluate raiseUnit [10] [] none [] 5).map (fun r => (r.exc, r.trace)) =
      some (some (.other 3),
        [Event.unitHook .on_eval_start, Event.unitHook .on_eval_epoch_start,
          Event.dataNext 10, Event.evalStep, Event.unitHook .on_exception]) := by
  obtain ⟨r, hr, hexc, htr⟩ := C4_exception_path raiseUnit [10] [] none [] 5
    { trace := [Event.unitHook .on_eval_start, Event.unitHook .on_eval_epoch_start,
        Event.dataNext 10, Event.evalStep],
      state := { entry_point := .EVALUATE,
                 eval_state := { dataloader := [10], max_steps_per_epoch := none,
                                 max_steps := none, progress := {},
                                 _step_output := none },
                 should_stop := false, module_modes := [] },
      exc := some (.other 3) }
    (.other 3) (by decide) rfl ⟨false, rfl⟩ (by simp)
  rw [hr]
  simp [hexc, htr, cbTrace]

/-- C5: provided the `on_eval_start` hooks return normally, the
`on_eval_epoch_start` hooks (unit, then callbacks) are invoked if and only if
`progress.num_steps_completed_in_epoch` was 0 at the start of the call — the
mid-epoch-resume guard. -/
theorem C5_epoch_start_guard (u : EvalUnit) (cbs : List Callback) (fuel : Nat)
    (s0 : State) (r : Eff)
    (hstart : (_eval_pre_start u cbs s0).exc = none)
    (heq : _evaluate_impl u cbs fuel s0 = some r) :
    Event.unitHook .on_eval_epoch_start ∈ r.trace ↔
      s0.eval_state.progress.num_steps_completed_in_epoch = 0 := by
  constructor
  · intro he
    rcases impl_cases heq with ⟨hpre, rfl⟩ | ⟨rL, hpre, hloop, ⟨hL, rfl⟩ | ⟨hL, rfl⟩⟩
    · exact eval_pre_epoch_start_mem_count he
    · simp only [List.mem_append] at he
      rcases he with he | he
      · exact eval_pre_epoch_start_mem_count he
      · rcases eval_loop_trace_mem hloop he with ⟨j, h⟩ | ⟨j, h⟩ | h | ⟨bb, h⟩ <;> simp at h
    · simp only [List.mem_append] at he
      rcases he with (he | he) | he
      · exact eval_pre_epoch_start_mem_count he
      · rcases eval_loop_trace_mem hloop he with ⟨j, h⟩ | ⟨j, h⟩ | h | ⟨bb, h⟩ <;> simp at h
      · rcases eval_post_hooks he with h | h | h <;> simp [hookOf] at h
  · intro hcnt
    exact impl_trace_pre heq (eval_pre_epoch_start_mem hstart hcnt)

/-- C5 witness: a fresh run (in-epoch counter 0) fires the epoch-start unit
hook. -/
theorem C5_witness :
    (_evaluate_impl {} [] 3 (initState [1] none [])).map
      (fun r => decide (Event.unitHook .on_eval_epoch_start ∈ r.trace)) = some true := by
  rcases himpl : _evaluate_impl {} [] 3 (initState [1] none []) with _ | r
  · exact absurd himpl (by decide)
  · have hmem := (C5_epoch_start_guard {} [] 3 (initState [1] none []) r
      (by decide) himpl).mpr rfl
    simp [hmem]

/-- C6: with `max_steps_per_epoch = K`, a data source of at least `K`
batches, a batch-taking step function, benign hooks (no stop request, no
exception), exactly `K` steps complete in the single epoch and the run ends
without raising. -/
theorem C6_max_steps_per_epoch_cap (u : EvalUnit) (cbs : List Callback) (dl : List Nat)
    (K : Nat) (modes : List Bool) (fuel : Nat)
    (hbatch : u.step_requires_iterator = false)
    (hstart : ∀ s, u.on_eval_start s = .ok false)
    (hes : ∀ s, u.on_eval_epoch_start s = .ok false)
    (hstep : ∀ st b', ∃ out, u.eval_step st b' = .ok (out, false))
    (hee : ∀ s, u.on_eval_epoch_end s = .ok false)
    (hfin : ∀ s, u.on_eval_end s = .ok false)
    (hcb : ∀ c ∈ cbs, ∀ h s', c.hook h s' = .ok false)
    (hK : K ≤ dl.length) (hfuel : K < fuel) :
    ∃ r, evaluate u dl cbs (some K) modes fuel = some r ∧ r.exc = none ∧
      r.state.eval_state.progress.num_steps_completed = K ∧
      r.state.eval_state.progress.num_epochs_completed = 1 := by
  have hpre := eval_pre_benign hstart hes hcb (initState dl (some K) modes) rfl
  have hpreexc : (_eval_pre u cbs (initState dl (some K) modes)).exc = none := by rw [hpre]
  have hprev : (_eval_pre u cbs
      (initState dl (some K) modes)).state.eval_state.progress.num_steps_completed_in_epoch
      = 0 := by rw [hpre]; rfl
  have hpreTotal : (_eval_pre u cbs
      (initState dl (some K) modes)).state.eval_state.progress.num_steps_completed
      = 0 := by rw [hpre]; rfl
  obtain ⟨rL, hloop, hLexc, hLcount, hLtotal⟩ :=
    eval_loop_benign hbatch hstep hcb fuel
      (_eval_pre u cbs (initState dl (some K) modes)).state
      (_eval_pre u cbs (initState dl (some K) modes)).state.eval_state.dataloader
      (by rw [hpre]; rfl) (by rw [hpre]; rfl) (by rw [hpre]; rfl)
      (by rw [hprev]; exact Nat.zero_le K)
      (by rw [hprev, hpre]; simpa [initState] using hK)
      (by rw [hprev]; simpa using hfuel)
  have himpl := impl_of_loop hpreexc hloop hLexc
  have hpost := eval_post_benign hee hfin hcb (initState dl (some K) modes).module_modes
    ((_eval_pre u cbs
      (initState dl (some K) modes)).state.eval_state.progress.num_steps_completed_in_epoch)
    rL.state
  refine ⟨_, evaluate_of_impl himpl ?_, ?_, ?_, ?_⟩
  · show (_eval_post u cbs (initState dl (some K) modes).module_modes _ rL.state).exc = none
    rw [hpost]
  · show (_eval_post u cbs (initState dl (some K) modes).module_modes _ rL.state).exc = none
    rw [hpost]
  · show (_eval_post u cbs (initState dl (some K) modes).module_modes _
        rL.state).state.eval_state.progress.num_steps_completed = K
    rw [hpost]
    simp only [Progress.increment_epoch]
    rw [hLtotal, hpreTotal, hprev]
    omega
  · show (_eval_post u cbs (initState dl (some K) modes).module_modes _
        rL.state).state.eval_state.progress.num_epochs_completed = 1
    rw [hpost]
    simp only [Progress.increment_epoch]
    rw [(eval_loop_pres hloop).2.2.2.2.2]
    rw [hpre]
    rfl

/-- C6 witness: three batches, cap 2, benign unit: exactly 2 steps, one
epoch, no exception. -/
theorem C6_witness :
    (evaluate {} [1, 2, 3] [] (some 2) [] 5).map (fun r =>
      (r.exc, r.state.eval_state.progress.num_steps_completed,
        r.state.eval_state.progress.num_epochs_completed)) = some (none, 2, 1) := by
  obtain ⟨r, hr, hexc, hsteps, hepochs⟩ :=
    C6_max_steps_per_epoch_cap {} [] [1, 2, 3] 2 [] 5 rfl (fun _ => rfl) (fun _ => rfl)
      (fun _ _ => ⟨0, rfl⟩) (fun _ => rfl) (fun _ => rfl) (by simp) (by simp) (by omega)
  rw [hr]
  simp [hexc, hsteps, hepochs]

/-- C7 (corrected): the step output holds the most recent `eval_step` result
during the step's end-hook window — a step-end callback observes it set
(first conjunct: the probe callback raises unless it sees the output, and the
run succeeds) — and is cleared when the end-hooks return normally, so after
any evaluate epoch that completes with no StopIteration escaping an
`on_eval_step_end` callback, `last_step_output` is empty.  (When a step-end
callback raises StopIteration, the loop breaks with the output still set; see
the counterexample.) -/
theorem C7_step_output_window :
    ((evaluate outUnit [5] [probeEndCb] none [] 6).map
        (fun r => (r.exc, decide (Event.evalStep ∈ r.trace))) = some (none, true)) ∧
    (∀ (u : EvalUnit) (dl : List Nat) (cbs : List Callback) (mspe : Option Nat)
      (modes : List Bool) (fuel : Nat) (r : Eff),
      (∀ c ∈ cbs, ∀ s2, c.hook .on_eval_step_end s2 ≠ .error .stopIteration) →
      evaluate u dl cbs mspe modes fuel = some r → r.exc = none →
      r.state.eval_state._step_output = none) := by
  refine ⟨by decide, ?_⟩
  intro u dl cbs mspe modes fuel r hend heq hok
  have himpl := evaluate_ok heq hok
  rcases impl_cases himpl with ⟨hpre, rfl⟩ | ⟨rL, hpre, hloop, ⟨hL, rfl⟩ | ⟨hL, rfl⟩⟩
  · exact absurd hok hpre
  · exact absurd hok hL
  · have hpost : (_eval_post u cbs (initState dl mspe modes).module_modes
        (_eval_pre u cbs
          (initState dl mspe modes)).state.eval_state.progress.num_steps_completed_in_epoch
        rL.state).exc = none := hok
    show (_eval_post u cbs (initState dl mspe modes).module_modes
        (_eval_pre u cbs
          (initState dl mspe modes)).state.eval_state.progress.num_steps_completed_in_epoch
        rL.state).state.eval_state._step_output = none
    rw [(eval_post_spec hpost).2.2.2.2.2.2.1]
    refine eval_loop_output hend hloop ?_ hL
    rw [(eval_pre_spec u cbs (initState dl mspe modes)).1]
    rfl

/-- C7 counterexample: a step-end callback raising StopIteration breaks the
loop after `_step_output` was assigned; the epoch then completes normally
(no exception, epoch counted) with `last_step_output` still holding the
output 7 — refuting "after any evaluate epoch completes, last_step_output is
empty/absent". -/
theorem C7_counterexample :
    (evaluate outUnit [10, 20] [stopIterEndCb] none [] 6).map
      (fun r => (r.exc, r.state.eval_state._step_output,
        r.state.eval_state.progress.num_epochs_completed)) = some (none, some 7, 1) := by
  decide

/-- C7 witness: a benign run ends with the step output cleared. -/
theorem C7_witness :
    (evaluate {} [1, 2] [] none [] 4).map (fun r => r.state.eval_state._step_output)
      = some none := by
  rcases hr : evaluate {} [1, 2] [] none [] 4 with _ | r
  · exact absurd hr (by decide)
  · have hexc : r.exc = none := by
      have h2 : (evaluate {} [1, 2] [] none [] 4).map Eff.exc = some none := by decide
      rw [hr] at h2
      simpa using h2
    have h := C7_step_output_window.2 {} [1, 2] [] none [] 4 r (by simp) hr hexc
    simp [h]

/-- C8: an evaluate run over an empty data source is non-fatal: the
empty-dataloader warning is logged, zero steps complete, the
`on_eval_epoch_end` and `on_eval_end` hooks still fire, and the epoch counter
is incremented. -/
theorem C8_empty_dataloader (u : EvalUnit) (cbs : List Callback) (mspe : Option Nat)
    (modes : List Bool) (fuel : Nat)
    (hbatch : u.step_requires_iterator = false)
    (hstart : ∀ s, u.on_eval_start s = .ok false)
    (hes : ∀ s, u.on_eval_epoch_start s = .ok false)
    (hee : ∀ s, u.on_eval_epoch_end s = .ok false)
    (hfin : ∀ s, u.on_eval_end s = .ok false)
    (hcb : ∀ c ∈ cbs, ∀ h s', c.hook h s' = .ok false)
    (hfuel : 0 < fuel) :
    ∃ r, evaluate u [] cbs mspe modes fuel = some r ∧ r.exc = none ∧
      Event.warnEmpty ∈ r.trace ∧ Event.unitHook .on_eval_epoch_end ∈ r.trace ∧
      Event.unitHook .on_eval_end ∈ r.trace ∧
      r.state.eval_state.progress.num_epochs_completed = 1 ∧
      r.state.eval_state.progress.num_steps_completed = 0 := by
  obtain ⟨fuel, rfl⟩ : ∃ f, fuel = f + 1 := ⟨fuel - 1, by omega⟩
  have hpre := eval_pre_benign hstart hes hcb (initState [] mspe modes) rfl
  have hpreexc : (_eval_pre u cbs (initState [] mspe modes)).exc = none := by rw [hpre]
  have hloop : _eval_loop u cbs (fuel + 1) (_eval_pre u cbs (initState [] mspe modes)).state
      (_eval_pre u cbs (initState [] mspe modes)).state.eval_state.dataloader =
      some (Eff.pure (_eval_pre u cbs (initState [] mspe modes)).state) := by
    have hdl : (_eval_pre u cbs (initState [] mspe modes)).state.eval_state.dataloader
        = [] := by rw [hpre]; rfl
    rw [hdl]
    exact eval_loop_nil u cbs fuel _ hbatch
  have himpl := impl_of_loop hpreexc hloop rfl
  have hpost := eval_post_benign hee hfin hcb (initState [] mspe modes).module_modes
    ((_eval_pre u cbs
      (initState [] mspe modes)).state.eval_state.progress.num_steps_completed_in_epoch)
    (Eff.pure (_eval_pre u cbs (initState [] mspe modes)).state).state
  have hwarn : ¬ 0 < (((Eff.pure (_eval_pre u cbs
      (initState [] mspe modes)).state).state.eval_state.progress.num_steps_completed_in_epoch
        : Int) -
      ((_eval_pre u cbs
        (initState [] mspe modes)).state.eval_state.progress.num_steps_completed_in_epoch
        : Int)).natAbs := by
    simp [Eff.pure]
  refine ⟨_, evaluate_of_impl himpl ?_, ?_, ?_, ?_, ?_, ?_, ?_⟩
  · show (_eval_post u cbs (initState [] mspe modes).module_modes _ _).exc = none
    rw [hpost]
  · show (_eval_post u cbs (initState [] mspe modes).module_modes _ _).exc = none
    rw [hpost]
  · show Event.warnEmpty ∈ _ ++ _ ++
      (_eval_post u cbs (initState [] mspe modes).module_modes _ _).trace
    rw [hpost]
    simp [hwarn]
  · show Event.unitHook .on_eval_epoch_end ∈ _ ++ _ ++
      (_eval_post u cbs (initState [] mspe modes).module_modes _ _).trace
    rw [hpost]
    simp
  · show Event.unitHook .on_eval_end ∈ _ ++ _ ++
      (_eval_post u cbs (initState [] mspe modes).module_modes _ _).trace
    rw [hpost]
    simp
  · show (_eval_post u cbs (initState [] mspe modes).module_modes _
        _).state.eval_state.progress.num_epochs_completed = 1
    rw [hpost]
    simp only [Progress.increment_epoch]
    have : (Eff.pure (_eval_pre u cbs
        (initState [] mspe modes)).state).state.eval_state.progress.num_epochs_completed
        = 0 := by rw [hpre]; rfl
    rw [this]
  · show (_eval_post u cbs (initState [] mspe modes).module_modes _
        _).state.eval_state.progress.num_steps_completed = 0
    rw [hpost]
    simp only [Progress.increment_epoch]
    show (_eval_pre u cbs
      (initState [] mspe modes)).state.eval_state.progress.num_steps_completed = 0
    rw [hpre]
    rfl

/-- C8 witness: the empty-source run logs the warning, fires the epoch-end
and end hooks, counts the epoch, and completes zero steps. -/
theorem C8_witness :
    (evaluate {} [] [] none [true] 2).map (fun r =>
      (r.exc, decide (Event.warnEmpty ∈ r.trace),
        decide (Event.unitHook .on_eval_epoch_end ∈ r.trace),
        r.state.eval_state.progress.num_epochs_completed,
        r.state.eval_state.progress.num_steps_completed))
      = some (none, true, true, 1, 0) := by
  obtain ⟨r, hr, hexc, hw, hee2, hfe, hep, hst⟩ :=
    C8_empty_dataloader {} [] none [true] 2 rfl (fun _ => rfl) (fun _ => rfl)
      (fun _ => rfl) (fun _ => rfl) (by simp) (by omega)
  rw [hr]
  simp [hexc, hw, hee2, hep, hst]

/-- C9: a StopIteration raised anywhere inside the step loop's try-block —
the unit's `eval_step` or a step start/end callback, not only the batch pull
— is caught: (1) the interrupted step is not counted; (2) the loop exits
normally with the body's state and no exception; (3) a run completing
without exception never invokes any `on_exception` hook and still fires
`on_eval_epoch_end`. -/
theorem C9_stopIteration_breaks :
    (∀ (u : EvalUnit) (cbs : List Callback) (s : State) (rem : List Nat)
      (tr : List Event) (s' : State),
      _eval_step_body u cbs s rem = (tr, s', .brk) →
      s'.eval_state.progress = s.eval_state.progress) ∧
    (∀ (u : EvalUnit) (cbs : List Callback) (fuel : Nat) (s : State) (rem : List Nat)
      (tr : List Event) (s' : State),
      (s.should_stop || _is_epoch_done s.eval_state.progress
        s.eval_state.max_steps_per_epoch s.eval_state.max_steps) = false →
      _eval_step_body u cbs s rem = (tr, s', .brk) →
      _eval_loop u cbs (fuel + 1) s rem =
        some { trace := tr, state := s', exc := none }) ∧
    (∀ (u : EvalUnit) (dl : List Nat) (cbs : List Callback) (mspe : Option Nat)
      (modes : List Bool) (fuel : Nat) (r : Eff),
      evaluate u dl cbs mspe modes fuel = some r → r.exc = none →
      (∀ e2 ∈ r.trace, hookOf e2 ≠ some HookName.on_exception) ∧
      Event.unitHook .on_eval_epoch_end ∈ r.trace) := by
  refine ⟨?_, ?_, ?_⟩
  · intro u cbs s rem tr s' heq
    exact (eval_step_body_progress heq).2 (Or.inl rfl)
  · intro u cbs fuel s rem tr s' hcond heq
    exact eval_loop_brk hcond heq
  · intro u dl cbs mspe modes fuel r heq hok
    have himpl := evaluate_ok heq hok
    exact ⟨fun e2 he2 => impl_trace_hooks himpl he2, (impl_ok_spec himpl hok).2.2.2.2.2.2.2.1⟩

/-- C9 witness: with no batches left, the step loop breaks immediately and
returns normally. -/
theorem C9_witness :
    _eval_loop {} [] (0 + 1) (initState [] none []) [] =
      some { trace := [], state := initState [] none [], exc := none } :=
  C9_stopIteration_breaks.2.1 {} [] 0 (initState [] none []) [] [] (initState [] none [])
    (by decide) (by decide)

/-- C10: every evaluate call that returns without raising completes exactly
one epoch on the fresh State it constructed: entry point EVALUATE, one epoch
completed, and the in-epoch step counter reset to 0 — regardless of data
source length, step cap, or stop requests. -/
theorem C10_single_epoch (u : EvalUnit) (dl : List Nat) (cbs : List Callback)
    (mspe : Option Nat) (modes : List Bool) (fuel : Nat) (r : Eff)
    (heq : evaluate u dl cbs mspe modes fuel = some r) (hok : r.exc = none) :
    r.state.entry_point = EntryPoint.EVALUATE ∧
    r.state.eval_state.progress.num_epochs_completed = 1 ∧
    r.state.eval_state.progress.num_steps_completed_in_epoch = 0 := by
  obtain ⟨h1, -, -, -, -, h6, h7, -, -⟩ := impl_ok_spec (evaluate_ok heq hok) hok
  exact ⟨h1, h6, h7⟩

/-- C10 witness: a run with a stop-requesting unit still completes exactly
one epoch with the in-epoch counter reset. -/
theorem C10_witness :
    (evaluate { eval_step := fun _ _ => .ok (0, true) } [1, 2, 3] [] none [] 6).map
      (fun r => (r.state.entry_point, r.state.eval_state.progress.num_epochs_completed,
        r.state.eval_state.progress.num_steps_completed_in_epoch))
      = some (EntryPoint.EVALUATE, 1, 0) := by
  rcases hr : evaluate { eval_step := fun _ _ => .ok (0, true) } [1, 2, 3] [] none [] 6
    with _ | r
  · exact absurd hr (by decide)
  · have hexc : r.exc = none := by
      have h2 : (evaluate { eval_step := fun _ _ => .ok (0, true) } [1, 2, 3] [] none [] 6).map
          Eff.exc = some none := by decide
      rw [hr] at h2
      simpa using h2
    obtain ⟨h1, h2, h3⟩ := C10_single_epoch { eval_step := fun _ _ => .ok (0, true) }
      [1, 2, 3] [] none [] 6 r hr hexc
    simp [h1, h2, h3]

end TNT
